import Mathlib

/-!
Verification development for the `att_preventivos` repository.

The repository contains two near-duplicate Python scripts,
`attStatusPreventivos_cobranca.py` (invoice+company variant) and
`attStatusPreventivos_preventivos.py` (order-number variant).  This file
gives a shallow embedding of their status-resolution core: the key
normalizers, the batching helper, the retry/re-authentication loop of
`ConfirmaFacilAPI._request`, the paginator `fetch_ocorrencias`, the
per-key classification, `resolver_status`, and the status re-expansion
performed by `main`.  Remote I/O is abstracted by explicit oracles
(functions supplying the outcome of each HTTP call), so every definition
is executable and every observable effect (calls made, re-authentications,
sleeps) is tracked in a trace.
-/

namespace AttPreventivos

/-! ## Python value model

Raw cell values reaching the normalizers are `None`, ints, floats or
strings.  Floats are represented by their observable class: NaN,
an integral float (where `value.is_integer()` holds and `int(value)` is
the carried integer), or a non-integral float carried as its `str`
rendering. -/

inductive PyVal where
  | none : PyVal
  | int (n : Int) : PyVal
  | floatNaN : PyVal
  | floatInt (n : Int) : PyVal
  | floatFrac (s : String) : PyVal
  | str (s : String) : PyVal
deriving DecidableEq

/-- Decimal digits of a natural number, most significant first; `fuel`
dominates the recursion depth (`n < fuel` suffices). -/
def natDigits : Nat → Nat → List Char
  | 0, _ => []
  | fuel + 1, n =>
    if n < 10 then [Nat.digitChar n]
    else natDigits fuel (n / 10) ++ [Nat.digitChar (n % 10)]

/-- Python `str` of a natural number. -/
def natRepr (n : Nat) : String := ⟨natDigits (n + 1) n⟩

/-- Python `str` of an int. -/
def intRepr : Int → String
  | Int.ofNat m => natRepr m
  | Int.negSucc m => "-" ++ natRepr (m + 1)

/-- Python `str(value)`. -/
def pyStr : PyVal → String
  | PyVal.none => "None"
  | PyVal.int n => intRepr n
  | PyVal.floatNaN => "nan"
  | PyVal.floatInt n => intRepr n ++ ".0"
  | PyVal.floatFrac s => s
  | PyVal.str s => s

/-- Python truthiness of a value (`bool(value)`). -/
def pyTruthy : PyVal → Bool
  | PyVal.none => false
  | PyVal.int n => decide (n ≠ 0)
  | PyVal.floatNaN => true
  | PyVal.floatInt n => decide (n ≠ 0)
  | PyVal.floatFrac _ => true
  | PyVal.str s => decide (s ≠ "")

/-! ## String helpers mirroring Python's `str` methods -/

/-- `str.strip()` on the character list: drop whitespace from both ends. -/
def stripChars (l : List Char) : List Char :=
  ((l.dropWhile Char.isWhitespace).reverse.dropWhile Char.isWhitespace).reverse

/-- Python `s.strip()`. -/
def pyStrip (s : String) : String := ⟨stripChars s.data⟩

/-- Python `s.isdigit()`: non-empty and all digits. -/
def pyIsDigit (s : String) : Bool := !s.data.isEmpty && s.data.all Char.isDigit

/-- Python `s.endswith(suffix)`. -/
def pyEndsWith (s suffix : String) : Bool := suffix.data.isSuffixOf s.data

/-- Python `s[:-n]` for `n ≥ 1`. -/
def pyDropRight (s : String) (n : Nat) : String := ⟨s.data.take (s.data.length - n)⟩

/-- Python `s.lower()` (ASCII). -/
def pyLower (s : String) : String := ⟨s.data.map Char.toLower⟩

/-- Python `"".join(ch for ch in s if ch.isdigit())`. -/
def pyDigits (s : String) : String := ⟨s.data.filter Char.isDigit⟩

/-- Python `s.zfill(w)` for digit-only strings. -/
def pyZfill (s : String) (w : Nat) : String :=
  ⟨List.replicate (w - s.data.length) '0' ++ s.data⟩

/-! ## Key normalizers

`normalize_nf` (cobranca, lines 68-79) and `normalize_pedido`
(preventivos, lines 70-81) have identical bodies; `normalize_cnpj` is
cobranca lines 82-90. -/

/-- `normalize_nf` from `attStatusPreventivos_cobranca.py`. -/
def normalize_nf (v : PyVal) : String :=
  match v with
  | PyVal.none => ""
  | PyVal.floatNaN => ""
  | PyVal.int n => intRepr n
  | PyVal.floatInt n => intRepr n
  | v =>
    let text := pyStrip (pyStr v)
    if pyEndsWith text ".0" && pyIsDigit (pyDropRight text 2) then pyDropRight text 2
    else text

/-- `normalize_pedido` from `attStatusPreventivos_preventivos.py`
(same body as `normalize_nf`). -/
def normalize_pedido (v : PyVal) : String :=
  match v with
  | PyVal.none => ""
  | PyVal.floatNaN => ""
  | PyVal.int n => intRepr n
  | PyVal.floatInt n => intRepr n
  | v =>
    let text := pyStrip (pyStr v)
    if pyEndsWith text ".0" && pyIsDigit (pyDropRight text 2) then pyDropRight text 2
    else text

/-- `normalize_cnpj` from `attStatusPreventivos_cobranca.py`. -/
def normalize_cnpj (v : PyVal) : String :=
  match v with
  | PyVal.none => ""
  | PyVal.floatNaN => ""
  | v =>
    let digits := pyDigits (pyStr v)
    if digits = "" then ""
    else if digits.data.length < 14 then pyZfill digits 14
    else digits

/-- The shared text path of `normalize_nf`/`normalize_pedido` (strip,
then drop a trailing `".0"` when the remainder is all digits); the
normalizers reduce to it definitionally on textual input. -/
def nfFromText (t0 : String) : String :=
  let text := pyStrip t0
  if pyEndsWith text ".0" && pyIsDigit (pyDropRight text 2) then pyDropRight text 2
  else text

/-- The body of `normalize_cnpj` past the `None`/NaN guard; the
normalizer reduces to it definitionally. -/
def cnpjFromText (s : String) : String :=
  let digits := pyDigits s
  if digits = "" then ""
  else if digits.data.length < 14 then pyZfill digits 14
  else digits

/-! ## Occurrence records

A server record is a JSON dict; the scripts only read
`tipoOcorrencia.codigo`, `pedido.numero` and `embarque.pedido.numero`.
`Option.none` models a missing key or an explicit JSON `null` (both make
Python's `dict.get` return `None`). -/

structure TipoOcorrencia where
  codigo : Option PyVal
deriving DecidableEq

structure PedidoRef where
  numero : Option PyVal
deriving DecidableEq

structure Embarque where
  pedido : Option PedidoRef
deriving DecidableEq

structure Item where
  tipoOcorrencia : Option TipoOcorrencia
  pedido : Option PedidoRef
  embarque : Option Embarque
deriving DecidableEq

/-- `ENTREGUE_CODES` (both scripts, line 36). -/
def ENTREGUE_CODES : List String := ["1", "2", "37", "999"]

/-- `CANCELADO_CODES` (both scripts, line 37). -/
def CANCELADO_CODES : List String := ["25", "102", "203", "303", "325", "327"]

/-- `extract_codigo` (both scripts): `str(codigo).strip()` of
`(item.get("tipoOcorrencia") or {}).get("codigo")`, or `""` when absent. -/
def extract_codigo (item : Item) : String :=
  match item.tipoOcorrencia with
  | Option.none => ""
  | Option.some t =>
    match t.codigo with
    | Option.none => ""
    | Option.some v => pyStrip (pyStr v)

/-- Python truthiness of an optional value (`dict.get` result). -/
def pyOptTruthy : Option PyVal → Bool
  | Option.none => false
  | Option.some v => pyTruthy v

/-- `extract_pedido` (preventivos, lines 156-160): take
`pedido.numero`, falling back to `embarque.pedido.numero` when the first
is falsy, and normalize it. -/
def extract_pedido (item : Item) : String :=
  let p1 := item.pedido.bind PedidoRef.numero
  let p := if pyOptTruthy p1 then p1
           else (item.embarque.bind Embarque.pedido).bind PedidoRef.numero
  normalize_pedido (p.getD PyVal.none)

/-! ## Association-list model of Python dicts -/

/-- `d[k] = v` on a dict kept as an assoc list: overwrite in place if the
key exists, else append (Python dicts preserve insertion order). -/
def dictInsert {K V : Type} [DecidableEq K] (m : List (K × V)) (k : K) (v : V) :
    List (K × V) :=
  if m.any (fun kv => decide (kv.1 = k)) then
    m.map (fun kv => if kv.1 = k then (k, v) else kv)
  else m ++ [(k, v)]

/-- `d.get(k)` as an option. -/
def lookup? {K V : Type} [DecidableEq K] (m : List (K × V)) (k : K) : Option V :=
  (m.find? (fun kv => decide (kv.1 = k))).map Prod.snd

/-- `d.get(k, dflt)`. -/
def getD {K V : Type} [DecidableEq K] (m : List (K × V)) (k : K) (dflt : V) : V :=
  (lookup? m k).getD dflt

/-- `list(dict.fromkeys(l))`: deduplicate keeping first occurrences. -/
def dedupFirst {K : Type} [DecidableEq K] (l : List K) : List K :=
  l.foldl (fun acc p => if p ∈ acc then acc else acc ++ [p]) []

/-! ## Batcher (`chunked`, both scripts)

`for i in range(0, len(items), size): yield items[i:i+size]`.  A zero
`size` makes Python's `range` raise `ValueError` on first iteration,
modelled as `Option.none`.  The fuel argument dominates the recursion
depth (`items.length` suffices when `1 ≤ size`). -/

def chunkedAux {α : Type} : Nat → List α → Nat → List (List α)
  | 0, _, _ => []
  | _ + 1, [], _ => []
  | fuel + 1, a :: rest, size =>
    (a :: rest).take size :: chunkedAux fuel ((a :: rest).drop size) size

/-- `chunked` as called by the scripts; `none` models the `ValueError`
raised by a zero step. -/
def chunked {α : Type} (items : List α) (size : Nat) : Option (List (List α)) :=
  if size = 0 then Option.none else Option.some (chunkedAux items.length items size)

/-! ## RequestExecutor (`ConfirmaFacilAPI._request`, both scripts)

The HTTP layer is an oracle `http : Nat → Option String → HttpOutcome`
giving, for each GET issued so far (call index) and the Authorization
token sent, either `raisesOnCall` (the `session.get` call itself raises a
`requests` exception — connection error or timeout surfaced after
transport-level retries; in the source this call sits *outside* the
`try`) or a response with a status code and an optional parsed body
(`Option.none` body = `response.json()` raises).  `auth : Nat → Option
String` gives the outcome of the n-th `authenticate()` call: a fresh
token, or `none` on failure. -/

structure Payload where
  respostas : List Item
  totalPages : Nat
deriving DecidableEq

/-- `{"respostas": []}` — the empty record payload (missing
`totalPages` reads as 0 through `payload.get("totalPages", 0)`). -/
def Payload.empty : Payload := ⟨[], 0⟩

inductive HttpOutcome where
  | raisesOnCall : HttpOutcome
  | resp (status : Nat) (body : Option Payload) : HttpOutcome
deriving DecidableEq

/-- Result of `_request`: a returned payload, or an exception propagating
to the caller. -/
inductive ReqResult where
  | ok (p : Payload) : ReqResult
  | raised : ReqResult
deriving DecidableEq

/-- Observable effects of one `_request` run: GETs issued,
`authenticate()` calls made, and the `time.sleep` durations in order. -/
structure ReqTrace where
  calls : Nat
  reauths : Nat
  sleeps : List Nat
deriving DecidableEq

/-- The body of `_request`'s `for attempt in range(1, retries + 1)` loop.
`fuel` counts the iterations left (loop entry: `fuel = retries`,
`attempt = 1`); exhausting it is the loop's fall-through
`return {"respostas": []}`. -/
def requestLoop (http : Nat → Option String → HttpOutcome)
    (auth : Nat → Option String) (retries : Nat) :
    Nat → Nat → Nat → Nat → List Nat → Option String → ReqResult × ReqTrace
  | 0, _, calls, reauths, sleeps, _ =>
    (ReqResult.ok Payload.empty, ⟨calls, reauths, sleeps⟩)
  | fuel + 1, attempt, calls, reauths, sleeps, tok =>
    match http calls tok with
    | HttpOutcome.raisesOnCall => (ReqResult.raised, ⟨calls + 1, reauths, sleeps⟩)
    | HttpOutcome.resp status body =>
      if status = 401 then
        match auth reauths with
        | Option.none => (ReqResult.ok Payload.empty, ⟨calls + 1, reauths + 1, sleeps⟩)
        | Option.some t =>
          requestLoop http auth retries fuel (attempt + 1) (calls + 1) (reauths + 1)
            sleeps (Option.some t)
      else if status = 404 then (ReqResult.ok Payload.empty, ⟨calls + 1, reauths, sleeps⟩)
      else if 400 ≤ status ∧ status < 600 ∨ body = Option.none then
        if attempt = retries then (ReqResult.ok Payload.empty, ⟨calls + 1, reauths, sleeps⟩)
        else
          requestLoop http auth retries fuel (attempt + 1) (calls + 1) reauths
            (sleeps ++ [2 * attempt]) tok
      else
        match body with
        | Option.some p => (ReqResult.ok p, ⟨calls + 1, reauths, sleeps⟩)
        | Option.none => (ReqResult.ok Payload.empty, ⟨calls + 1, reauths, sleeps⟩)

/-- `ConfirmaFacilAPI._request(params, retries)`; `tok` is `self.token`
at entry.  The `params` argument is folded into the oracles. -/
def _request (http : Nat → Option String → HttpOutcome)
    (auth : Nat → Option String) (tok : Option String) (retries : Nat) :
    ReqResult × ReqTrace :=
  requestLoop http auth retries retries 1 0 0 [] tok

/-- An `HttpOutcome` that `_request` handles by retrying with backoff:
a response whose status is neither 401 nor 404 and that either fails
`raise_for_status` (4xx/5xx) or has an unparseable body. -/
def retryFail : HttpOutcome → Bool
  | HttpOutcome.raisesOnCall => false
  | HttpOutcome.resp status body =>
    decide (status ≠ 401) && decide (status ≠ 404) &&
      (decide (400 ≤ status ∧ status < 600) || decide (body = Option.none))

/-- The payload `_request`'s result would hand the caller when it does
not raise (irrelevant placeholder on the raising branch). -/
def ReqResult.payloadD : ReqResult → Payload
  | ReqResult.ok p => p
  | ReqResult.raised => Payload.empty

/-- Result of `fetch_ocorrencias`: a record list, or the exception of a
raising `_request` (claim C3) propagating through it. -/
inductive FetchResult where
  | ok (items : List Item) : FetchResult
  | raised : FetchResult
deriving DecidableEq

/-- The record list a non-raising `fetch_ocorrencias` would return
(irrelevant placeholder on the raising branch). -/
def FetchResult.itemsD : FetchResult → List Item
  | FetchResult.ok items => items
  | FetchResult.raised => []

/-- Result of `resolver_status`: the status map, or the exception of a
raising remote query propagating through it and aborting the run. -/
inductive ResolveResult (α : Type) where
  | ok (m : α) : ResolveResult α
  | raised : ResolveResult α
deriving DecidableEq

namespace Cobranca

/-- Per-key classification inlined in cobranca's `resolver_status`
(lines 163-176): scan the occurrence list setting ENTREGUE/CANCELADO
flags, then apply the explicit priority with default `"-"`. -/
def classify_ocorrencias (ocorrencias : List Item) : String :=
  let flags := ocorrencias.foldl
    (fun (ec : Bool × Bool) item =>
      (ec.1 || decide (extract_codigo item ∈ ENTREGUE_CODES),
       ec.2 || decide (extract_codigo item ∈ CANCELADO_CODES)))
    (false, false)
  if flags.1 then "ENTREGUE" else if flags.2 then "CANCELADO" else "-"

/-- `resolver_status` (cobranca, lines 157-177): one fetch per input
pair, classifying into a dict.  `fetch nf cnpj` abstracts
`api.fetch_ocorrencias(nf, cnpj)` (a failed query returns `[]`). -/
def resolver_status (fetch : String → String → List Item)
    (pares : List (String × String)) : List ((String × String) × String) :=
  pares.foldl (fun m p => dictInsert m p (classify_ocorrencias (fetch p.1 p.2))) []

/-- The status list built by cobranca's `main` (lines 268-287) from the
raw sheet rows; `startIndex` is 1 when a header row was detected. -/
def main_statuses (fetch : String → String → List Item)
    (values : List (List PyVal)) (startIndex : Nat) : List String :=
  let pares := (values.drop startIndex).map
    (fun row => (normalize_nf (row.getD 0 (PyVal.str "")),
                 normalize_cnpj (row.getD 1 (PyVal.str ""))))
  let pares_validos := pares.filter (fun p => !(p.1 = "") && !(p.2 = ""))
  let pares_unicos := dedupFirst pares_validos
  let status_map := resolver_status fetch pares_unicos
  pares.map (fun p => if p.1 = "" ∨ p.2 = "" then "" else getD status_map p "-")

/-- `resolver_status` (cobranca) with the executor's raising path
preserved: `fetch nf cnpj` abstracts `api.fetch_ocorrencias(nf, cnpj)`,
which raises when its `session.get` raises (claim C3).  No `try`
surrounds the per-pair loop, so a raising query propagates out of
`resolver_status`, aborting the run and discarding the statuses already
computed for earlier pairs. -/
def resolver_status_req (fetch : String → String → FetchResult)
    (pares : List (String × String)) :
    ResolveResult (List ((String × String) × String)) :=
  pares.foldl
    (fun acc p =>
      match acc with
      | ResolveResult.raised => ResolveResult.raised
      | ResolveResult.ok m =>
        match fetch p.1 p.2 with
        | FetchResult.raised => ResolveResult.raised
        | FetchResult.ok items =>
          ResolveResult.ok (dictInsert m p (classify_ocorrencias items)))
    (ResolveResult.ok [])

end Cobranca

namespace Preventivos

/-- `SUBLOTE_SIZE` (preventivos, line 41). -/
def SUBLOTE_SIZE : Nat := 20

/-- The sub-batches `chunked(pedidos, SUBLOTE_SIZE)` iterated by
`resolver_status`; the positive size makes the fuel `pedidos.length`
sufficient. -/
def sublotes (pedidos : List String) : List (List String) :=
  chunkedAux pedidos.length pedidos SUBLOTE_SIZE

/-- `flags = {pedido: {"entregue": False, "cancelado": False} for pedido
in pedidos}` (line 172). -/
def initFlags (pedidos : List String) : List (String × Bool × Bool) :=
  pedidos.foldl (fun m p => dictInsert m p (false, false)) []

/-- One iteration of the scan loop (lines 176-184): skip records with an
empty or unknown embedded order number, otherwise set the owning key's
flags. -/
def applyItem (flags : List (String × Bool × Bool)) (item : Item) :
    List (String × Bool × Bool) :=
  let ped := extract_pedido item
  let cod := extract_codigo item
  if ped = "" ∨ ¬ (flags.any (fun e => decide (e.1 = ped)) = true) then flags
  else
    flags.map (fun e =>
      if e.1 = ped then
        (e.1, e.2.1 || decide (cod ∈ ENTREGUE_CODES),
              e.2.2 || decide (cod ∈ CANCELADO_CODES))
      else e)

/-- Flag-pair to status (lines 187-193). -/
def classifyFlags (fl : Bool × Bool) : String :=
  if fl.1 then "ENTREGUE" else if fl.2 then "CANCELADO" else "DESPACHADO"

/-- `resolver_status` (preventivos, lines 170-194) in the mode where
every remote query returns: `fetch sublote` abstracts
`api.fetch_ocorrencias(sublote)` with failures absorbed by the executor
(a failed batch returns `[]`).  The raising mode of the executor (claim
C3), under which a query aborts the resolver, is modelled separately by
`resolver_status_req`. -/
def resolver_status (fetch : List String → List Item) (pedidos : List String) :
    List (String × String) :=
  let flags := (sublotes pedidos).foldl
    (fun fl ch => (fetch ch).foldl applyItem fl) (initFlags pedidos)
  flags.map (fun e => (e.1, classifyFlags e.2))

/-- The key list built by `load_pedidos_from_sheet` (lines 224-225) from
the sheet's first column: normalize each data row, keep non-empty values
whose stripped lowercase form is not `"nan"`. -/
def pedidos_from (firstCol : List PyVal) (startIndex : Nat) : List String :=
  ((firstCol.drop startIndex).map normalize_pedido).filter
    (fun p => !(p = "") && !(pyLower (pyStrip p) = "nan"))

/-- The status list built by preventivos' `main` (lines 267-287). -/
def main_statuses (fetch : List String → List Item) (firstCol : List PyVal)
    (hasHeader : Bool) : List String :=
  let startIndex := if hasHeader then 1 else 0
  let pedidos_list := pedidos_from firstCol startIndex
  let pedidos_unicos := dedupFirst pedidos_list
  let status_map := resolver_status fetch pedidos_unicos
  (firstCol.drop startIndex).map (fun v =>
    let p := normalize_pedido v
    if p = "" then "" else getD status_map p "DESPACHADO")

/-- `fetch_ocorrencias` (preventivos, lines 131-153) at the payload
level, in the mode where every `_request` returns: `req page` abstracts
`self._request(params)` with `params["page"] = page` (an executor-absorbed
failure yields `Payload.empty`).  Page 0 is the initial call; its
`totalPages` drives the loop `for page in range(1, total_pages)`.  The
raising mode of `_request` (claim C3) is modelled separately by
`fetch_ocorrencias_req`. -/
def fetch_ocorrencias (req : Nat → Payload) : List Item :=
  let payload := req 0
  payload.respostas ++
    ((List.range' 1 (payload.totalPages - 1)).map
      (fun page => (req page).respostas)).flatten

/-- The page indices `fetch_ocorrencias` requests, in order. -/
def fetch_pages (req : Nat → Payload) : List Nat :=
  0 :: List.range' 1 ((req 0).totalPages - 1)

/-- `fetch_ocorrencias` with the executor's raising path preserved:
`req page` is the full result of `self._request(params)` at that page —
a payload, or a propagating exception (`session.get` outside the `try`,
claim C3).  Nothing in `fetch_ocorrencias` catches it, so a raising
page aborts the whole pagination, discarding the records of pages
already fetched; the loop stops at the raising page. -/
def fetch_ocorrencias_req (req : Nat → ReqResult) : FetchResult :=
  match req 0 with
  | ReqResult.raised => FetchResult.raised
  | ReqResult.ok payload =>
    (List.range' 1 (payload.totalPages - 1)).foldl
      (fun acc page =>
        match acc with
        | FetchResult.raised => FetchResult.raised
        | FetchResult.ok respostas =>
          match req page with
          | ReqResult.raised => FetchResult.raised
          | ReqResult.ok p => FetchResult.ok (respostas ++ p.respostas))
      (FetchResult.ok payload.respostas)

/-- `resolver_status` (preventivos) with the executor's raising path
preserved: `fetch sublote` is the full result of
`api.fetch_ocorrencias(sublote)` — a record list, or a propagating
exception.  No `try` surrounds the batch loop, so a raising batch
aborts `resolver_status` (and the run), losing every key's result. -/
def resolver_status_req (fetch : List String → FetchResult)
    (pedidos : List String) : ResolveResult (List (String × String)) :=
  match (sublotes pedidos).foldl
      (fun acc ch =>
        match acc with
        | ResolveResult.raised => ResolveResult.raised
        | ResolveResult.ok fl =>
          match fetch ch with
          | FetchResult.raised => ResolveResult.raised
          | FetchResult.ok items => ResolveResult.ok (items.foldl applyItem fl))
      (ResolveResult.ok (initFlags pedidos)) with
  | ResolveResult.raised => ResolveResult.raised
  | ResolveResult.ok flags =>
    ResolveResult.ok (flags.map (fun e => (e.1, classifyFlags e.2)))

end Preventivos

/-! ## Spec-side predicates and concrete fixtures -/

/-- The spec's claimed canonical form for invoice/order numbers: a
decimal-integer string (optionally sign-prefixed).  Stated from the
spec's words, for comparison against what the normalizers return. -/
def specDecimalIntString (s : String) : Bool :=
  pyIsDigit s || (decide (s.data.head? = Option.some '-') && pyIsDigit ⟨s.data.drop 1⟩)

/-- A record carrying only an occurrence code. -/
def itemWithCode (c : String) : Item :=
  ⟨Option.some ⟨Option.some (PyVal.str c)⟩, Option.none, Option.none⟩

/-- A record carrying an occurrence code and an owning order number. -/
def itemFor (p c : String) : Item :=
  ⟨Option.some ⟨Option.some (PyVal.str c)⟩, Option.some ⟨Option.some (PyVal.str p)⟩,
    Option.none⟩

/-! ## Character and string lemmas -/

theorem isDigit_not_ws (c : Char) (h : c.isDigit = true) : c.isWhitespace = false := by
  by_contra hw
  rw [Bool.not_eq_false] at hw
  simp only [Char.isWhitespace, Bool.or_eq_true, decide_eq_true_eq] at hw
  simp only [Char.isDigit, Bool.and_eq_true, decide_eq_true_eq] at h
  rcases hw with ((h1 | h1) | h1) | h1 <;> subst h1 <;> revert h <;> decide

theorem isDigit_ne_dot (c : Char) (h : c.isDigit = true) : c ≠ '.' := by
  intro he; subst he; revert h; decide

theorem stripChars_eq_rdropWhile (l : List Char) :
    stripChars l =
      List.rdropWhile Char.isWhitespace (List.dropWhile Char.isWhitespace l) := rfl

theorem head?_dropWhile_false {α : Type} (p : α → Bool) (l : List α) (c : α)
    (h : (l.dropWhile p).head? = Option.some c) : p c = false := by
  induction l with
  | nil => simp at h
  | cons a t ih =>
    rw [List.dropWhile_cons] at h
    by_cases ha : p a = true
    · rw [if_pos ha] at h
      exact ih h
    · rw [if_neg ha] at h
      simp only [List.head?_cons, Option.some.injEq] at h
      subst h
      exact Bool.eq_false_iff.mpr ha

theorem stripChars_idem (l : List Char) : stripChars (stripChars l) = stripChars l := by
  rw [stripChars_eq_rdropWhile, stripChars_eq_rdropWhile]
  have key : List.dropWhile Char.isWhitespace
      (List.rdropWhile Char.isWhitespace (List.dropWhile Char.isWhitespace l))
      = List.rdropWhile Char.isWhitespace (List.dropWhile Char.isWhitespace l) := by
    cases hB : List.rdropWhile Char.isWhitespace (List.dropWhile Char.isWhitespace l) with
    | nil => rfl
    | cons c r =>
      obtain ⟨t, ht⟩ := List.rdropWhile_prefix Char.isWhitespace
        (List.dropWhile Char.isWhitespace l)
      rw [hB] at ht
      have hhead : (List.dropWhile Char.isWhitespace l).head? = Option.some c := by
        rw [← ht]
        rfl
      have hc := head?_dropWhile_false Char.isWhitespace l c hhead
      rw [List.dropWhile_cons, hc]
      simp
  rw [key, List.rdropWhile_idempotent]

theorem stripChars_eq_self (l : List Char)
    (h : ∀ c ∈ l, c.isWhitespace = false) : stripChars l = l := by
  rw [stripChars_eq_rdropWhile]
  have h1 : List.dropWhile Char.isWhitespace l = l := by
    rw [List.dropWhile_eq_self_iff]
    intro hl
    rw [h (l.get ⟨0, hl⟩) (List.get_mem l 0 hl)]
    exact Bool.false_ne_true
  rw [h1, List.rdropWhile_eq_self_iff]
  intro hl
  rw [h (l.getLast hl) (List.getLast_mem hl)]
  exact Bool.false_ne_true

theorem pyStrip_idem (s : String) : pyStrip (pyStrip s) = pyStrip s :=
  congrArg String.mk (stripChars_idem s.data)

theorem pyStrip_eq_self (s : String)
    (h : ∀ c ∈ s.data, c.isWhitespace = false) : pyStrip s = s := by
  have : pyStrip s = ⟨s.data⟩ := congrArg String.mk (stripChars_eq_self s.data h)
  exact this

theorem pyIsDigit_iff (s : String) :
    pyIsDigit s = true ↔ s.data ≠ [] ∧ ∀ c ∈ s.data, c.isDigit = true := by
  unfold pyIsDigit
  rw [Bool.and_eq_true, Bool.not_eq_true', List.isEmpty_eq_false, List.all_eq_true]

theorem dot_mem_of_pyEndsWith (s : String) (h : pyEndsWith s ".0" = true) :
    '.' ∈ s.data := by
  unfold pyEndsWith at h
  obtain ⟨t, ht⟩ := List.isSuffixOf_iff_suffix.mp h
  rw [← ht]
  have : '.' ∈ (".0" : String).data := by decide
  exact List.mem_append_right t this

theorem pyEndsWith_eq_false_of_no_dot (s : String) (h : '.' ∉ s.data) :
    pyEndsWith s ".0" = false := by
  by_contra hc
  rw [Bool.not_eq_false] at hc
  exact h (dot_mem_of_pyEndsWith s hc)

/-! ## Decimal rendering lemmas -/

theorem digitChar_isDigit (n : Nat) (h : n < 10) : (Nat.digitChar n).isDigit = true := by
  interval_cases n <;> decide

theorem natDigits_spec :
    ∀ fuel n, n < fuel →
      (∀ c ∈ natDigits fuel n, c.isDigit = true) ∧ natDigits fuel n ≠ [] := by
  intro fuel
  induction fuel with
  | zero => intro n h; omega
  | succ f ih =>
    intro n h
    by_cases h10 : n < 10
    · constructor
      · intro c hc
        simp only [natDigits, if_pos h10, List.mem_singleton] at hc
        subst hc
        exact digitChar_isDigit n h10
      · simp [natDigits, if_pos h10]
    · have hd : n / 10 < f := by
        have h1 : n / 10 < n := Nat.div_lt_self (by omega) (by omega)
        omega
      obtain ⟨ha, hne⟩ := ih (n / 10) hd
      constructor
      · intro c hc
        simp only [natDigits, if_neg h10, List.mem_append, List.mem_singleton] at hc
        rcases hc with hc | hc
        · exact ha c hc
        · subst hc
          exact digitChar_isDigit (n % 10) (Nat.mod_lt n (by omega))
      · simp [natDigits, if_neg h10]

theorem natRepr_digits (n : Nat) :
    (∀ c ∈ (natRepr n).data, c.isDigit = true) ∧ (natRepr n).data ≠ [] :=
  natDigits_spec (n + 1) n (by omega)

theorem intRepr_chars (n : Int) :
    ∀ c ∈ (intRepr n).data, c.isDigit = true ∨ c = '-' := by
  intro c hc
  cases n with
  | ofNat m => exact Or.inl ((natRepr_digits m).1 c hc)
  | negSucc m =>
    rw [show intRepr (Int.negSucc m) = "-" ++ natRepr (m + 1) from rfl,
      String.data_append] at hc
    rcases List.mem_append.mp hc with hc | hc
    · right
      simpa using hc
    · exact Or.inl ((natRepr_digits (m + 1)).1 c hc)

theorem intRepr_no_dot (n : Int) : '.' ∉ (intRepr n).data := by
  intro hmem
  rcases intRepr_chars n '.' hmem with h | h
  · exact isDigit_ne_dot '.' h rfl
  · exact absurd h (by decide)

theorem intRepr_no_ws (n : Int) : ∀ c ∈ (intRepr n).data, c.isWhitespace = false := by
  intro c hc
  rcases intRepr_chars n c hc with h | h
  · exact isDigit_not_ws c h
  · subst h; decide

/-! ## Normalizer lemmas -/

theorem normalize_pedido_eq_nf (v : PyVal) : normalize_pedido v = normalize_nf v := rfl

theorem normalize_nf_str (s : String) : normalize_nf (PyVal.str s) = nfFromText s := rfl

theorem normalize_nf_frac (s : String) :
    normalize_nf (PyVal.floatFrac s) = nfFromText s := rfl

theorem normalize_nf_int (n : Int) : normalize_nf (PyVal.int n) = intRepr n := rfl

theorem normalize_nf_floatInt (n : Int) : normalize_nf (PyVal.floatInt n) = intRepr n := rfl

theorem normalize_cnpj_str (s : String) :
    normalize_cnpj (PyVal.str s) = cnpjFromText s := rfl

theorem pyIsDigit_all (s : String) (h : pyIsDigit s = true) :
    ∀ c ∈ s.data, c.isDigit = true := ((pyIsDigit_iff s).mp h).2

theorem pyIsDigit_no_dot (s : String) (h : pyIsDigit s = true) : '.' ∉ s.data := by
  intro hmem
  exact isDigit_ne_dot '.' (pyIsDigit_all s h '.' hmem) rfl

theorem pyStrip_of_isDigit (s : String) (h : pyIsDigit s = true) : pyStrip s = s :=
  pyStrip_eq_self s (fun c hc => isDigit_not_ws c (pyIsDigit_all s h c hc))

theorem nfFromText_of_isDigit (s : String) (h : pyIsDigit s = true) :
    nfFromText s = s := by
  simp only [nfFromText]
  rw [pyStrip_of_isDigit s h,
    pyEndsWith_eq_false_of_no_dot s (pyIsDigit_no_dot s h)]
  simp

theorem nfFromText_intRepr (n : Int) : nfFromText (intRepr n) = intRepr n := by
  simp only [nfFromText]
  rw [pyStrip_eq_self (intRepr n) (intRepr_no_ws n),
    pyEndsWith_eq_false_of_no_dot (intRepr n) (intRepr_no_dot n)]
  simp

theorem nfFromText_idem (s : String) : nfFromText (nfFromText s) = nfFromText s := by
  conv_lhs => rw [show nfFromText s = (if (pyEndsWith (pyStrip s) ".0" &&
    pyIsDigit (pyDropRight (pyStrip s) 2)) = true then pyDropRight (pyStrip s) 2
    else pyStrip s) from rfl]
  by_cases hc : (pyEndsWith (pyStrip s) ".0" &&
      pyIsDigit (pyDropRight (pyStrip s) 2)) = true
  · rw [if_pos hc]
    rw [nfFromText_of_isDigit _ ((Bool.and_eq_true _ _).mp hc).2]
    simp only [nfFromText]
    rw [if_pos hc]
  · rw [if_neg hc]
    show nfFromText (pyStrip s) = nfFromText s
    simp only [nfFromText]
    rw [pyStrip_idem s]

theorem normalize_nf_idem (v : PyVal) :
    normalize_nf (PyVal.str (normalize_nf v)) = normalize_nf v := by
  cases v with
  | none => decide
  | floatNaN => decide
  | int n => rw [normalize_nf_int, normalize_nf_str]; exact nfFromText_intRepr n
  | floatInt n => rw [normalize_nf_floatInt, normalize_nf_str]; exact nfFromText_intRepr n
  | str s => rw [normalize_nf_str, normalize_nf_str]; exact nfFromText_idem s
  | floatFrac s => rw [normalize_nf_frac, normalize_nf_str]; exact nfFromText_idem s

theorem cnpjFromText_spec (s : String) :
    cnpjFromText s = "" ∨
      ((∀ c ∈ (cnpjFromText s).data, c.isDigit = true) ∧
        14 ≤ (cnpjFromText s).data.length) := by
  unfold cnpjFromText
  by_cases h0 : pyDigits s = ""
  · rw [if_pos h0]
    exact Or.inl rfl
  · rw [if_neg h0]
    have hall : ∀ c ∈ (pyDigits s).data, c.isDigit = true := by
      intro c hc
      unfold pyDigits at hc
      exact (List.mem_filter.mp hc).2
    by_cases h14 : (pyDigits s).data.length < 14
    · rw [if_pos h14]
      right
      constructor
      · intro c hc
        unfold pyZfill at hc
        rcases List.mem_append.mp hc with hc | hc
        · rw [List.eq_of_mem_replicate hc]
          decide
        · exact hall c hc
      · show 14 ≤ (List.replicate (14 - (pyDigits s).data.length) '0' ++
          (pyDigits s).data).length
        rw [List.length_append, List.length_replicate]
        omega
    · rw [if_neg h14]
      right
      exact ⟨hall, by omega⟩

theorem normalize_cnpj_spec (v : PyVal) :
    normalize_cnpj v = "" ∨
      ((∀ c ∈ (normalize_cnpj v).data, c.isDigit = true) ∧
        14 ≤ (normalize_cnpj v).data.length) := by
  cases v with
  | none => exact Or.inl rfl
  | floatNaN => exact Or.inl rfl
  | int n => exact cnpjFromText_spec (intRepr n)
  | floatInt n => exact cnpjFromText_spec (intRepr n ++ ".0")
  | floatFrac s => exact cnpjFromText_spec s
  | str s => exact cnpjFromText_spec s

theorem cnpjFromText_fix (t : String) (hall : ∀ c ∈ t.data, c.isDigit = true)
    (hlen : 14 ≤ t.data.length) : cnpjFromText t = t := by
  have hdig : pyDigits t = t := by
    show String.mk (t.data.filter Char.isDigit) = t
    rw [List.filter_eq_self.mpr hall]
  have hne : ¬ (t = "") := by
    intro h0
    rw [h0] at hlen
    simp at hlen
  simp only [cnpjFromText]
  rw [hdig, if_neg hne, if_neg (by omega)]

theorem cnpjFromText_idem (s : String) :
    normalize_cnpj (PyVal.str (cnpjFromText s)) = cnpjFromText s := by
  rcases cnpjFromText_spec s with h | ⟨hall, hlen⟩
  · rw [h]
    decide
  · rw [normalize_cnpj_str]
    exact cnpjFromText_fix _ hall hlen

theorem normalize_cnpj_idem (v : PyVal) :
    normalize_cnpj (PyVal.str (normalize_cnpj v)) = normalize_cnpj v := by
  cases v with
  | none => decide
  | floatNaN => decide
  | int n => exact cnpjFromText_idem (intRepr n)
  | floatInt n => exact cnpjFromText_idem (intRepr n ++ ".0")
  | floatFrac s => exact cnpjFromText_idem s
  | str s => exact cnpjFromText_idem s

theorem normalize_nf_not_fractional (v : PyVal) :
    ¬ (pyEndsWith (normalize_nf v) ".0" = true ∧
        pyIsDigit (pyDropRight (normalize_nf v) 2) = true) := by
  have core : ∀ s : String,
      ¬ (pyEndsWith (nfFromText s) ".0" = true ∧
          pyIsDigit (pyDropRight (nfFromText s) 2) = true) := by
    intro s
    simp only [nfFromText]
    by_cases hc : (pyEndsWith (pyStrip s) ".0" &&
        pyIsDigit (pyDropRight (pyStrip s) 2)) = true
    · rw [if_pos hc]
      rintro ⟨h1, -⟩
      exact pyIsDigit_no_dot _ ((Bool.and_eq_true _ _).mp hc).2
        (dot_mem_of_pyEndsWith _ h1)
    · rw [if_neg hc]
      rintro ⟨h1, h2⟩
      exact hc (by rw [h1, h2]; rfl)
  cases v with
  | none => rintro ⟨h1, -⟩; revert h1; decide
  | floatNaN => rintro ⟨h1, -⟩; revert h1; decide
  | int n =>
    rw [normalize_nf_int]
    rintro ⟨h1, -⟩
    exact intRepr_no_dot n (dot_mem_of_pyEndsWith _ h1)
  | floatInt n =>
    rw [normalize_nf_floatInt]
    rintro ⟨h1, -⟩
    exact intRepr_no_dot n (dot_mem_of_pyEndsWith _ h1)
  | str s => rw [normalize_nf_str]; exact core s
  | floatFrac s => rw [normalize_nf_frac]; exact core s

theorem intRepr_specDecimal (n : Int) : specDecimalIntString (intRepr n) = true := by
  unfold specDecimalIntString
  cases n with
  | ofNat m =>
    have h : pyIsDigit (natRepr m) = true := by
      rw [pyIsDigit_iff]
      exact ⟨(natRepr_digits m).2, (natRepr_digits m).1⟩
    rw [show intRepr (Int.ofNat m) = natRepr m from rfl, h]
    rfl
  | negSucc m =>
    have hdata : (intRepr (Int.negSucc m)).data = '-' :: (natRepr (m + 1)).data := by
      rw [show intRepr (Int.negSucc m) = "-" ++ natRepr (m + 1) from rfl,
        String.data_append]
      rfl
    have h2 : pyIsDigit ⟨(intRepr (Int.negSucc m)).data.drop 1⟩ = true := by
      rw [hdata]
      rw [pyIsDigit_iff]
      exact ⟨(natRepr_digits (m + 1)).2, (natRepr_digits (m + 1)).1⟩
    rw [Bool.or_eq_true]
    right
    rw [Bool.and_eq_true, h2, hdata]
    exact ⟨by simp, rfl⟩

/-! ## Classifier lemmas -/

theorem foldl_flags (l : List Item) (a b : Bool) :
    l.foldl (fun (ec : Bool × Bool) item =>
      (ec.1 || decide (extract_codigo item ∈ ENTREGUE_CODES),
       ec.2 || decide (extract_codigo item ∈ CANCELADO_CODES))) (a, b)
    = (a || l.any (fun it => decide (extract_codigo it ∈ ENTREGUE_CODES)),
       b || l.any (fun it => decide (extract_codigo it ∈ CANCELADO_CODES))) := by
  induction l generalizing a b with
  | nil => simp
  | cons it rest ih =>
    simp only [List.foldl_cons, List.any_cons]
    rw [ih]
    simp [Bool.or_assoc]

theorem classify_eq (l : List Item) :
    Cobranca.classify_ocorrencias l =
      (if l.any (fun it => decide (extract_codigo it ∈ ENTREGUE_CODES)) then "ENTREGUE"
       else if l.any (fun it => decide (extract_codigo it ∈ CANCELADO_CODES)) then
         "CANCELADO"
       else "-") := by
  simp only [Cobranca.classify_ocorrencias]
  rw [foldl_flags l false false]
  simp

theorem anyE_iff (l : List Item) :
    l.any (fun it => decide (extract_codigo it ∈ ENTREGUE_CODES)) = true ↔
      ∃ it ∈ l, extract_codigo it ∈ ENTREGUE_CODES := by
  rw [List.any_eq_true]
  simp

theorem anyC_iff (l : List Item) :
    l.any (fun it => decide (extract_codigo it ∈ CANCELADO_CODES)) = true ↔
      ∃ it ∈ l, extract_codigo it ∈ CANCELADO_CODES := by
  rw [List.any_eq_true]
  simp

theorem any_perm {α : Type} (p : α → Bool) {l l' : List α} (h : l.Perm l') :
    l.any p = l'.any p := by
  rw [Bool.eq_iff_iff, List.any_eq_true, List.any_eq_true]
  constructor
  · rintro ⟨x, hx, hp⟩
    exact ⟨x, h.subset hx, hp⟩
  · rintro ⟨x, hx, hp⟩
    exact ⟨x, h.symm.subset hx, hp⟩

/-! ## Dict and dedup lemmas -/

theorem lookup_nil {K V : Type} [DecidableEq K] (k : K) :
    lookup? ([] : List (K × V)) k = Option.none := rfl

theorem lookup_cons {K V : Type} [DecidableEq K] (x : K × V) (rest : List (K × V))
    (k : K) :
    lookup? (x :: rest) k = if x.1 = k then Option.some x.2 else lookup? rest k := by
  unfold lookup?
  by_cases h : x.1 = k
  · rw [List.find?_cons_of_pos _ (by simpa using h), if_pos h]
    rfl
  · rw [List.find?_cons_of_neg _ (by simpa using h), if_neg h]

theorem mem_keys_any {K V : Type} [DecidableEq K] (m : List (K × V)) (k : K) :
    (m.any fun kv => decide (kv.1 = k)) = true ↔ k ∈ m.map Prod.fst := by
  rw [List.any_eq_true]
  simp

theorem dictInsert_keys {K V : Type} [DecidableEq K] (m : List (K × V)) (k : K) (v : V) :
    (dictInsert m k v).map Prod.fst =
      if k ∈ m.map Prod.fst then m.map Prod.fst else m.map Prod.fst ++ [k] := by
  unfold dictInsert
  by_cases h : k ∈ m.map Prod.fst
  · rw [if_pos ((mem_keys_any m k).mpr h), if_pos h, List.map_map]
    apply List.map_congr_left
    intro kv _
    by_cases hk : kv.1 = k
    · simp [hk]
    · simp [hk]
  · rw [if_neg (fun hc => h ((mem_keys_any m k).mp hc)), if_neg h]
    simp

theorem lookup_map_entry {K V W : Type} [DecidableEq K] (m : List (K × V)) (g : V → W)
    (k : K) :
    lookup? (m.map (fun e => (e.1, g e.2))) k = (lookup? m k).map g := by
  induction m with
  | nil => rfl
  | cons x rest ih =>
    rw [List.map_cons, lookup_cons, lookup_cons]
    by_cases h : x.1 = k
    · rw [if_pos h, if_pos h]
      rfl
    · rw [if_neg h, if_neg h]
      exact ih

theorem exists_lookup_of_mem_keys {K V : Type} [DecidableEq K] (m : List (K × V))
    (k : K) (h : k ∈ m.map Prod.fst) : ∃ v, lookup? m k = Option.some v := by
  induction m with
  | nil => simp at h
  | cons x rest ih =>
    rw [lookup_cons]
    by_cases hx : x.1 = k
    · exact ⟨x.2, by rw [if_pos hx]⟩
    · rw [if_neg hx]
      apply ih
      rw [List.map_cons, List.mem_cons] at h
      rcases h with h | h
      · exact absurd h.symm hx
      · exact h

theorem lookup_eq_none_of_not_mem {K V : Type} [DecidableEq K] (m : List (K × V))
    (k : K) (h : k ∉ m.map Prod.fst) : lookup? m k = Option.none := by
  induction m with
  | nil => rfl
  | cons x rest ih =>
    rw [List.map_cons, List.mem_cons] at h
    push_neg at h
    rw [lookup_cons, if_neg (fun hc => h.1 hc.symm)]
    exact ih h.2

theorem lookup_mem {K V : Type} [DecidableEq K] (m : List (K × V)) (k : K) (v : V)
    (h : lookup? m k = Option.some v) : (k, v) ∈ m := by
  induction m with
  | nil => exact absurd h (by rw [lookup_nil]; exact Option.noConfusion)
  | cons x rest ih =>
    rw [lookup_cons] at h
    by_cases hx : x.1 = k
    · rw [if_pos hx] at h
      have hv : v = x.2 := (Option.some.injEq _ _).mp h.symm
      rw [List.mem_cons]
      exact Or.inl (by rw [hv, ← hx])
    · rw [if_neg hx] at h
      exact List.mem_cons_of_mem x (ih h)

theorem dedupFoldl_mem {K : Type} [DecidableEq K] (l : List K) :
    ∀ (acc : List K) (k : K),
      k ∈ l.foldl (fun acc p => if p ∈ acc then acc else acc ++ [p]) acc ↔
        k ∈ acc ∨ k ∈ l := by
  induction l with
  | nil =>
    intro acc k
    simp
  | cons x rest ih =>
    intro acc k
    rw [List.foldl_cons]
    by_cases hx : x ∈ acc
    · rw [if_pos hx, ih]
      constructor
      · rintro (h | h)
        · exact Or.inl h
        · exact Or.inr (List.mem_cons_of_mem x h)
      · rintro (h | h)
        · exact Or.inl h
        · rcases List.mem_cons.mp h with rfl | h
          · exact Or.inl hx
          · exact Or.inr h
    · rw [if_neg hx, ih]
      constructor
      · rintro (h | h)
        · rcases List.mem_append.mp h with h | h
          · exact Or.inl h
          · rw [List.mem_singleton.mp h]
            exact Or.inr (List.mem_cons_self x rest)
        · exact Or.inr (List.mem_cons_of_mem x h)
      · rintro (h | h)
        · exact Or.inl (List.mem_append_left _ h)
        · rcases List.mem_cons.mp h with rfl | h
          · exact Or.inl (List.mem_append_right _ (List.mem_singleton_self k))
          · exact Or.inr h

theorem dedupFirst_mem {K : Type} [DecidableEq K] (l : List K) (k : K) :
    k ∈ dedupFirst l ↔ k ∈ l := by
  unfold dedupFirst
  rw [dedupFoldl_mem]
  simp

theorem dedupFoldl_nodup {K : Type} [DecidableEq K] (l : List K) :
    ∀ acc : List K, acc.Nodup →
      (l.foldl (fun acc p => if p ∈ acc then acc else acc ++ [p]) acc).Nodup := by
  induction l with
  | nil =>
    intro acc h
    exact h
  | cons x rest ih =>
    intro acc h
    rw [List.foldl_cons]
    by_cases hx : x ∈ acc
    · rw [if_pos hx]
      exact ih acc h
    · rw [if_neg hx]
      apply ih
      rw [List.nodup_append]
      refine ⟨h, List.nodup_singleton x, ?_⟩
      intro a ha hax
      rw [List.mem_singleton] at hax
      exact hx (hax ▸ ha)

theorem dedupFirst_nodup {K : Type} [DecidableEq K] (l : List K) :
    (dedupFirst l).Nodup :=
  dedupFoldl_nodup l [] List.nodup_nil

theorem foldl_dictInsert_keys {K V : Type} [DecidableEq K] (f : K → V) (l : List K) :
    ∀ m : List (K × V),
      (l.foldl (fun m p => dictInsert m p (f p)) m).map Prod.fst =
        l.foldl (fun acc p => if p ∈ acc then acc else acc ++ [p]) (m.map Prod.fst) := by
  induction l with
  | nil =>
    intro m
    rfl
  | cons x rest ih =>
    intro m
    rw [List.foldl_cons, List.foldl_cons, ih, dictInsert_keys]

theorem foldl_dictInsert_val {K V : Type} [DecidableEq K] (f : K → V) (l : List K) :
    ∀ m : List (K × V), (∀ e ∈ m, e.2 = f e.1) →
      ∀ e ∈ l.foldl (fun m p => dictInsert m p (f p)) m, e.2 = f e.1 := by
  induction l with
  | nil =>
    intro m h
    exact h
  | cons x rest ih =>
    intro m h
    rw [List.foldl_cons]
    apply ih
    intro e he
    unfold dictInsert at he
    by_cases hc : (m.any fun kv => decide (kv.1 = x)) = true
    · rw [if_pos hc] at he
      rcases List.mem_map.mp he with ⟨kv, hkv, rfl⟩
      by_cases hk : kv.1 = x
      · simp [hk]
      · simp only [if_neg hk]
        exact h kv hkv
    · rw [if_neg hc] at he
      rcases List.mem_append.mp he with he | he
      · exact h e he
      · rw [List.mem_singleton.mp he]

theorem resolver_cob_keys (fetch : String → String → List Item)
    (pares : List (String × String)) :
    (Cobranca.resolver_status fetch pares).map Prod.fst = dedupFirst pares :=
  foldl_dictInsert_keys
    (fun q : String × String => Cobranca.classify_ocorrencias (fetch q.1 q.2)) pares []

theorem lookup_resolver_cob (fetch : String → String → List Item)
    (pares : List (String × String)) (pr : String × String) (h : pr ∈ pares) :
    lookup? (Cobranca.resolver_status fetch pares) pr =
      Option.some (Cobranca.classify_ocorrencias (fetch pr.1 pr.2)) := by
  have hmem : pr ∈ (Cobranca.resolver_status fetch pares).map Prod.fst := by
    rw [resolver_cob_keys, dedupFirst_mem]
    exact h
  obtain ⟨v, hv⟩ := exists_lookup_of_mem_keys _ _ hmem
  have hval := foldl_dictInsert_val
    (fun q : String × String => Cobranca.classify_ocorrencias (fetch q.1 q.2)) pares []
    (by intro e he; cases he) (pr, v) (lookup_mem _ _ _ hv)
  rw [hv]
  exact congrArg Option.some hval

/-! ## Preventivos resolver lemmas -/

theorem applyItem_keys (fl : List (String × Bool × Bool)) (it : Item) :
    (Preventivos.applyItem fl it).map Prod.fst = fl.map Prod.fst := by
  simp only [Preventivos.applyItem]
  by_cases hg : (extract_pedido it = "" ∨
      ¬ ((fl.any fun e => decide (e.1 = extract_pedido it)) = true))
  · rw [if_pos hg]
  · rw [if_neg hg, List.map_map]
    apply List.map_congr_left
    intro e _
    by_cases hk : e.1 = extract_pedido it
    · simp [hk]
    · simp [hk]

theorem foldl_applyItem_keys (items : List Item) :
    ∀ fl : List (String × Bool × Bool),
      (items.foldl Preventivos.applyItem fl).map Prod.fst = fl.map Prod.fst := by
  induction items with
  | nil =>
    intro fl
    rfl
  | cons it rest ih =>
    intro fl
    rw [List.foldl_cons, ih, applyItem_keys]

theorem foldl_chunks_keys (chunks : List (List String))
    (fetch : List String → List Item) :
    ∀ fl : List (String × Bool × Bool),
      ((chunks.foldl (fun fl ch => (fetch ch).foldl Preventivos.applyItem fl) fl).map
        Prod.fst) = fl.map Prod.fst := by
  induction chunks with
  | nil =>
    intro fl
    rfl
  | cons ch rest ih =>
    intro fl
    rw [List.foldl_cons, ih, foldl_applyItem_keys]

theorem lookup_map_update (fl : List (String × Bool × Bool)) (ped : String)
    (f : String × Bool × Bool → Bool × Bool) (k : String) (h : ped ≠ k) :
    lookup? (fl.map (fun e => if e.1 = ped then (e.1, f e) else e)) k =
      lookup? fl k := by
  induction fl with
  | nil => rfl
  | cons e rest ih =>
    simp only [List.map_cons]
    rw [lookup_cons, lookup_cons]
    by_cases hp : e.1 = ped
    · rw [if_pos hp]
      by_cases he : e.1 = k
      · exact absurd (hp ▸ he) h
      · rw [if_neg he, if_neg he]
        exact ih
    · rw [if_neg hp]
      by_cases he : e.1 = k
      · rw [if_pos he, if_pos he]
      · rw [if_neg he, if_neg he]
        exact ih

theorem lookup_applyItem_ne (fl : List (String × Bool × Bool)) (it : Item) (k : String)
    (h : extract_pedido it ≠ k) :
    lookup? (Preventivos.applyItem fl it) k = lookup? fl k := by
  simp only [Preventivos.applyItem]
  by_cases hg : (extract_pedido it = "" ∨
      ¬ ((fl.any fun e => decide (e.1 = extract_pedido it)) = true))
  · rw [if_pos hg]
  · rw [if_neg hg]
    exact lookup_map_update fl (extract_pedido it)
      (fun e => (e.2.1 || decide (extract_codigo it ∈ ENTREGUE_CODES),
                 e.2.2 || decide (extract_codigo it ∈ CANCELADO_CODES))) k h

theorem lookup_foldl_applyItem_ne (items : List Item) :
    ∀ (fl : List (String × Bool × Bool)) (k : String),
      (∀ it ∈ items, extract_pedido it ≠ k) →
      lookup? (items.foldl Preventivos.applyItem fl) k = lookup? fl k := by
  induction items with
  | nil =>
    intro fl k _
    rfl
  | cons it rest ih =>
    intro fl k h
    rw [List.foldl_cons, ih _ k (fun x hx => h x (List.mem_cons_of_mem it hx)),
      lookup_applyItem_ne fl it k (h it (List.mem_cons_self it rest))]

theorem lookup_chunks_ne (chunks : List (List String))
    (fetch : List String → List Item) :
    ∀ (fl : List (String × Bool × Bool)) (k : String),
      (∀ ch ∈ chunks, ∀ it ∈ fetch ch, extract_pedido it ≠ k) →
      lookup? (chunks.foldl (fun fl ch => (fetch ch).foldl Preventivos.applyItem fl) fl)
        k = lookup? fl k := by
  induction chunks with
  | nil =>
    intro fl k _
    rfl
  | cons ch rest ih =>
    intro fl k h
    rw [List.foldl_cons,
      ih _ k (fun c hc it hit => h c (List.mem_cons_of_mem ch hc) it hit),
      lookup_foldl_applyItem_ne (fetch ch) fl k
        (h ch (List.mem_cons_self ch rest))]

theorem initFlags_keys (ps : List String) :
    (Preventivos.initFlags ps).map Prod.fst = dedupFirst ps :=
  foldl_dictInsert_keys (fun _ : String => ((false, false) : Bool × Bool)) ps []

theorem lookup_initFlags (ps : List String) (k : String) (h : k ∈ ps) :
    lookup? (Preventivos.initFlags ps) k = Option.some (false, false) := by
  have hmem : k ∈ (Preventivos.initFlags ps).map Prod.fst := by
    rw [initFlags_keys, dedupFirst_mem]
    exact h
  obtain ⟨v, hv⟩ := exists_lookup_of_mem_keys _ _ hmem
  have hval := foldl_dictInsert_val (fun _ : String => ((false, false) : Bool × Bool))
    ps [] (by intro e he; cases he) (k, v) (lookup_mem _ _ _ hv)
  rw [hv]
  exact congrArg Option.some hval

theorem resolver_prev_keys (fetch : List String → List Item) (ps : List String) :
    (Preventivos.resolver_status fetch ps).map Prod.fst = dedupFirst ps := by
  simp only [Preventivos.resolver_status]
  rw [List.map_map]
  have hcomp : (Prod.fst ∘ fun e : String × Bool × Bool =>
      (e.1, Preventivos.classifyFlags e.2)) = Prod.fst := rfl
  rw [hcomp, foldl_chunks_keys, initFlags_keys]

theorem lookup_resolver_prev (fetch : List String → List Item) (ps : List String)
    (k : String) :
    lookup? (Preventivos.resolver_status fetch ps) k =
      (lookup? ((Preventivos.sublotes ps).foldl
        (fun fl ch => (fetch ch).foldl Preventivos.applyItem fl)
        (Preventivos.initFlags ps)) k).map Preventivos.classifyFlags := by
  simp only [Preventivos.resolver_status]
  exact lookup_map_entry _ _ k

theorem resolver_prev_default (fetch : List String → List Item) (ps : List String)
    (k : String) (hk : k ∈ ps)
    (h : ∀ ch ∈ Preventivos.sublotes ps, ∀ it ∈ fetch ch, extract_pedido it ≠ k) :
    lookup? (Preventivos.resolver_status fetch ps) k = Option.some "DESPACHADO" := by
  rw [lookup_resolver_prev, lookup_chunks_ne _ _ _ _ h, lookup_initFlags ps k hk]
  rfl

theorem applyItem_irrelevant (fl : List (String × Bool × Bool)) (it : Item)
    (h : extract_pedido it = "" ∨ extract_pedido it ∉ fl.map Prod.fst) :
    Preventivos.applyItem fl it = fl := by
  simp only [Preventivos.applyItem]
  rcases h with h | h
  · rw [if_pos (Or.inl h)]
  · rw [if_pos (Or.inr (fun hc => h ((mem_keys_any fl _).mp hc)))]

theorem foldl_applyItem_filter (items : List Item) :
    ∀ fl : List (String × Bool × Bool),
      items.foldl Preventivos.applyItem fl =
        (items.filter (fun it => !(extract_pedido it = "") &&
          decide (extract_pedido it ∈ fl.map Prod.fst))).foldl
          Preventivos.applyItem fl := by
  induction items with
  | nil =>
    intro fl
    rfl
  | cons it rest ih =>
    intro fl
    rw [List.foldl_cons, List.filter_cons]
    by_cases hrel : (!(extract_pedido it = "") &&
        decide (extract_pedido it ∈ fl.map Prod.fst)) = true
    · rw [if_pos hrel, List.foldl_cons, ih (Preventivos.applyItem fl it)]
      simp only [applyItem_keys]
    · have h2 : extract_pedido it = "" ∨ extract_pedido it ∉ fl.map Prod.fst := by
        by_cases h0 : extract_pedido it = ""
        · exact Or.inl h0
        · right
          intro hmem
          apply hrel
          simp [h0, hmem]
      rw [if_neg hrel, applyItem_irrelevant fl it h2, ih fl]

theorem foldl_chunks_filter (chunks : List (List String))
    (fetch : List String → List Item) (ps : List String) :
    ∀ fl : List (String × Bool × Bool), fl.map Prod.fst = dedupFirst ps →
      chunks.foldl (fun fl ch => (fetch ch).foldl Preventivos.applyItem fl) fl =
        chunks.foldl (fun fl ch => ((fetch ch).filter
          (fun it => !(extract_pedido it = "") &&
            decide (extract_pedido it ∈ ps))).foldl Preventivos.applyItem fl) fl := by
  induction chunks with
  | nil =>
    intro fl _
    rfl
  | cons ch rest ih =>
    intro fl hkeys
    rw [List.foldl_cons, List.foldl_cons]
    have h1 : (fetch ch).foldl Preventivos.applyItem fl =
        ((fetch ch).filter (fun it => !(extract_pedido it = "") &&
          decide (extract_pedido it ∈ ps))).foldl Preventivos.applyItem fl := by
      rw [foldl_applyItem_filter (fetch ch) fl]
      congr 1
      apply List.filter_congr
      intro it _
      rw [hkeys]
      congr 1
      rw [decide_eq_decide]
      exact dedupFirst_mem ps _
    rw [h1]
    exact ih _ (by rw [foldl_applyItem_keys]; exact hkeys)

theorem resolver_prev_filter (fetch : List String → List Item) (ps : List String) :
    Preventivos.resolver_status fetch ps =
      Preventivos.resolver_status (fun ch => (fetch ch).filter
        (fun it => !(extract_pedido it = "") &&
          decide (extract_pedido it ∈ ps))) ps := by
  simp only [Preventivos.resolver_status]
  congr 1
  exact foldl_chunks_filter (Preventivos.sublotes ps) fetch ps
    (Preventivos.initFlags ps) (initFlags_keys ps)

theorem foldl_applyItem_single (k : String) (hk : k ≠ "") (l : List Item) :
    ∀ a b : Bool, (∀ it ∈ l, extract_pedido it = k) →
      l.foldl Preventivos.applyItem [(k, (a, b))] =
        [(k, (a || l.any (fun it => decide (extract_codigo it ∈ ENTREGUE_CODES)),
              b || l.any (fun it => decide (extract_codigo it ∈ CANCELADO_CODES))))] := by
  induction l with
  | nil =>
    intro a b _
    simp
  | cons it rest ih =>
    intro a b hall
    have hit : extract_pedido it = k := hall it (List.mem_cons_self it rest)
    rw [List.foldl_cons]
    have hstep : Preventivos.applyItem [(k, (a, b))] it =
        [(k, (a || decide (extract_codigo it ∈ ENTREGUE_CODES),
              b || decide (extract_codigo it ∈ CANCELADO_CODES)))] := by
      simp only [Preventivos.applyItem, hit]
      rw [if_neg ?g]
      · simp
      case g =>
        rintro (h | h)
        · exact hk h
        · exact h (by simp)
    rw [hstep, ih _ _ (fun x hx => hall x (List.mem_cons_of_mem it hx))]
    simp [Bool.or_assoc]

/-! ## Request-loop step lemmas -/

theorem requestLoop_step_raises (http : Nat → Option String → HttpOutcome)
    (auth : Nat → Option String) (retries fuel attempt calls reauths : Nat)
    (sleeps : List Nat) (tok : Option String)
    (hh : http calls tok = HttpOutcome.raisesOnCall) :
    requestLoop http auth retries (fuel + 1) attempt calls reauths sleeps tok =
      (ReqResult.raised, ⟨calls + 1, reauths, sleeps⟩) := by
  simp [requestLoop, hh]

theorem requestLoop_step_401_fail (http : Nat → Option String → HttpOutcome)
    (auth : Nat → Option String) (retries fuel attempt calls reauths : Nat)
    (sleeps : List Nat) (tok : Option String) (body : Option Payload)
    (hh : http calls tok = HttpOutcome.resp 401 body)
    (ha : auth reauths = Option.none) :
    requestLoop http auth retries (fuel + 1) attempt calls reauths sleeps tok =
      (ReqResult.ok Payload.empty, ⟨calls + 1, reauths + 1, sleeps⟩) := by
  simp [requestLoop, hh, ha]

theorem requestLoop_step_401_ok (http : Nat → Option String → HttpOutcome)
    (auth : Nat → Option String) (retries fuel attempt calls reauths : Nat)
    (sleeps : List Nat) (tok : Option String) (body : Option Payload) (t : String)
    (hh : http calls tok = HttpOutcome.resp 401 body)
    (ha : auth reauths = Option.some t) :
    requestLoop http auth retries (fuel + 1) attempt calls reauths sleeps tok =
      requestLoop http auth retries fuel (attempt + 1) (calls + 1) (reauths + 1)
        sleeps (Option.some t) := by
  simp [requestLoop, hh, ha]

theorem requestLoop_step_404 (http : Nat → Option String → HttpOutcome)
    (auth : Nat → Option String) (retries fuel attempt calls reauths : Nat)
    (sleeps : List Nat) (tok : Option String) (body : Option Payload)
    (hh : http calls tok = HttpOutcome.resp 404 body) :
    requestLoop http auth retries (fuel + 1) attempt calls reauths sleeps tok =
      (ReqResult.ok Payload.empty, ⟨calls + 1, reauths, sleeps⟩) := by
  simp [requestLoop, hh]

theorem requestLoop_step_retry_last (http : Nat → Option String → HttpOutcome)
    (auth : Nat → Option String) (retries fuel attempt calls reauths : Nat)
    (sleeps : List Nat) (tok : Option String) (status : Nat) (body : Option Payload)
    (hh : http calls tok = HttpOutcome.resp status body) (h401 : status ≠ 401)
    (h404 : status ≠ 404)
    (hfail : 400 ≤ status ∧ status < 600 ∨ body = Option.none)
    (hlast : attempt = retries) :
    requestLoop http auth retries (fuel + 1) attempt calls reauths sleeps tok =
      (ReqResult.ok Payload.empty, ⟨calls + 1, reauths, sleeps⟩) := by
  simp [requestLoop, hh, h401, h404, hfail, hlast]

theorem requestLoop_step_retry_cont (http : Nat → Option String → HttpOutcome)
    (auth : Nat → Option String) (retries fuel attempt calls reauths : Nat)
    (sleeps : List Nat) (tok : Option String) (status : Nat) (body : Option Payload)
    (hh : http calls tok = HttpOutcome.resp status body) (h401 : status ≠ 401)
    (h404 : status ≠ 404)
    (hfail : 400 ≤ status ∧ status < 600 ∨ body = Option.none)
    (hlast : attempt ≠ retries) :
    requestLoop http auth retries (fuel + 1) attempt calls reauths sleeps tok =
      requestLoop http auth retries fuel (attempt + 1) (calls + 1) reauths
        (sleeps ++ [2 * attempt]) tok := by
  simp [requestLoop, hh, h401, h404, hfail, hlast]

theorem requestLoop_step_success (http : Nat → Option String → HttpOutcome)
    (auth : Nat → Option String) (retries fuel attempt calls reauths : Nat)
    (sleeps : List Nat) (tok : Option String) (status : Nat) (p : Payload)
    (hh : http calls tok = HttpOutcome.resp status (Option.some p))
    (h401 : status ≠ 401) (h404 : status ≠ 404)
    (hnf : ¬ (400 ≤ status ∧ status < 600)) :
    requestLoop http auth retries (fuel + 1) attempt calls reauths sleeps tok =
      (ReqResult.ok p, ⟨calls + 1, reauths, sleeps⟩) := by
  simp [requestLoop, hh, h401, h404, hnf]

/-! ## Request-loop behaviour -/

theorem requestLoop_calls_le (http : Nat → Option String → HttpOutcome)
    (auth : Nat → Option String) (retries : Nat) :
    ∀ (fuel attempt calls reauths : Nat) (sleeps : List Nat) (tok : Option String),
      (requestLoop http auth retries fuel attempt calls reauths sleeps tok).2.calls ≤
        calls + fuel := by
  intro fuel
  induction fuel with
  | zero =>
    intro attempt calls reauths sleeps tok
    simp [requestLoop]
  | succ f ih =>
    intro attempt calls reauths sleeps tok
    cases hh : http calls tok with
    | raisesOnCall =>
      rw [requestLoop_step_raises http auth retries f attempt calls reauths sleeps tok hh]
      simp
    | resp status body =>
      by_cases h401 : status = 401
      · subst h401
        cases ha : auth reauths with
        | none =>
          rw [requestLoop_step_401_fail http auth retries f attempt calls reauths sleeps
            tok body hh ha]
          simp
        | some t =>
          rw [requestLoop_step_401_ok http auth retries f attempt calls reauths sleeps
            tok body t hh ha]
          have := ih (attempt + 1) (calls + 1) (reauths + 1) sleeps (Option.some t)
          omega
      · by_cases h404 : status = 404
        · subst h404
          rw [requestLoop_step_404 http auth retries f attempt calls reauths sleeps
            tok body hh]
          simp
        · by_cases hfail : 400 ≤ status ∧ status < 600 ∨ body = Option.none
          · by_cases hlast : attempt = retries
            · rw [requestLoop_step_retry_last http auth retries f attempt calls reauths
                sleeps tok status body hh h401 h404 hfail hlast]
              simp
            · rw [requestLoop_step_retry_cont http auth retries f attempt calls reauths
                sleeps tok status body hh h401 h404 hfail hlast]
              have := ih (attempt + 1) (calls + 1) reauths (sleeps ++ [2 * attempt]) tok
              omega
          · cases body with
            | none => exact absurd (Or.inr rfl) hfail
            | some p =>
              rw [requestLoop_step_success http auth retries f attempt calls reauths
                sleeps tok status p hh h401 h404 (fun hc => hfail (Or.inl hc))]
              simp

theorem requestLoop_allFail (http : Nat → Option String → HttpOutcome)
    (auth : Nat → Option String) (retries : Nat)
    (h : ∀ i t, retryFail (http i t) = true) :
    ∀ (fuel attempt calls reauths : Nat) (sleeps : List Nat) (tok : Option String),
      attempt + fuel = retries + 1 → 1 ≤ fuel →
      requestLoop http auth retries fuel attempt calls reauths sleeps tok =
        (ReqResult.ok Payload.empty,
         ⟨calls + fuel, reauths,
          sleeps ++ (List.range' attempt (fuel - 1)).map (fun a => 2 * a)⟩) := by
  intro fuel
  induction fuel with
  | zero =>
    intro attempt calls reauths sleeps tok _ h1
    omega
  | succ f ih =>
    intro attempt calls reauths sleeps tok hinv _
    cases hh : http calls tok with
    | raisesOnCall =>
      have hht := h calls tok
      rw [hh] at hht
      exact absurd hht (by simp [retryFail])
    | resp status body =>
      have hr := h calls tok
      rw [hh] at hr
      simp only [retryFail, Bool.and_eq_true, Bool.or_eq_true, decide_eq_true_eq] at hr
      obtain ⟨⟨h401, h404⟩, hfail⟩ := hr
      by_cases hlast : attempt = retries
      · have hf0 : f = 0 := by omega
        subst hf0
        rw [requestLoop_step_retry_last http auth retries 0 attempt calls reauths
          sleeps tok status body hh h401 h404 hfail hlast]
        simp
      · have hf1 : 1 ≤ f := by omega
        rw [requestLoop_step_retry_cont http auth retries f attempt calls reauths
          sleeps tok status body hh h401 h404 hfail hlast]
        rw [ih (attempt + 1) (calls + 1) reauths (sleeps ++ [2 * attempt]) tok
          (by omega) hf1]
        have hcalls : calls + 1 + f = calls + (f + 1) := by omega
        have hrange : List.range' attempt (f + 1 - 1) =
            attempt :: List.range' (attempt + 1) (f - 1) := by
          conv_lhs => rw [show f + 1 - 1 = (f - 1) + 1 by omega]
          rw [List.range'_succ]
        rw [hcalls, hrange, List.map_cons]
        simp [List.append_assoc]

theorem requestLoop_ok_of_handled (http : Nat → Option String → HttpOutcome)
    (auth : Nat → Option String) (retries : Nat)
    (h : ∀ i t, http i t ≠ HttpOutcome.raisesOnCall) :
    ∀ (fuel attempt calls reauths : Nat) (sleeps : List Nat) (tok : Option String),
      ∃ p, (requestLoop http auth retries fuel attempt calls reauths sleeps tok).1 =
        ReqResult.ok p := by
  intro fuel
  induction fuel with
  | zero =>
    intro attempt calls reauths sleeps tok
    exact ⟨Payload.empty, rfl⟩
  | succ f ih =>
    intro attempt calls reauths sleeps tok
    cases hh : http calls tok with
    | raisesOnCall => exact absurd hh (h calls tok)
    | resp status body =>
      by_cases h401 : status = 401
      · subst h401
        cases ha : auth reauths with
        | none =>
          rw [requestLoop_step_401_fail http auth retries f attempt calls reauths
            sleeps tok body hh ha]
          exact ⟨Payload.empty, rfl⟩
        | some t =>
          rw [requestLoop_step_401_ok http auth retries f attempt calls reauths
            sleeps tok body t hh ha]
          exact ih (attempt + 1) (calls + 1) (reauths + 1) sleeps (Option.some t)
      · by_cases h404 : status = 404
        · subst h404
          rw [requestLoop_step_404 http auth retries f attempt calls reauths sleeps
            tok body hh]
          exact ⟨Payload.empty, rfl⟩
        · by_cases hfail : 400 ≤ status ∧ status < 600 ∨ body = Option.none
          · by_cases hlast : attempt = retries
            · rw [requestLoop_step_retry_last http auth retries f attempt calls
                reauths sleeps tok status body hh h401 h404 hfail hlast]
              exact ⟨Payload.empty, rfl⟩
            · rw [requestLoop_step_retry_cont http auth retries f attempt calls
                reauths sleeps tok status body hh h401 h404 hfail hlast]
              exact ih (attempt + 1) (calls + 1) reauths (sleeps ++ [2 * attempt]) tok
          · cases body with
            | none => exact absurd (Or.inr rfl) hfail
            | some p =>
              rw [requestLoop_step_success http auth retries f attempt calls reauths
                sleeps tok status p hh h401 h404 (fun hc => hfail (Or.inl hc))]
              exact ⟨p, rfl⟩

/-! ## Chunking lemmas -/

theorem chunkedAux_join {α : Type} (size : Nat) (hs : 1 ≤ size) :
    ∀ (fuel : Nat) (items : List α), items.length ≤ fuel →
      (chunkedAux fuel items size).flatten = items := by
  intro fuel
  induction fuel with
  | zero =>
    intro items h
    have h0 : items = [] := List.length_eq_zero.mp (by omega)
    subst h0
    rfl
  | succ f ih =>
    intro items h
    cases items with
    | nil => rfl
    | cons a rest =>
      simp only [chunkedAux, List.flatten_cons]
      rw [ih ((a :: rest).drop size) (by rw [List.length_drop]; simp at h ⊢; omega)]
      exact List.take_append_drop size (a :: rest)

theorem chunkedAux_chunk_le {α : Type} (size : Nat) :
    ∀ (fuel : Nat) (items : List α), ∀ c ∈ chunkedAux fuel items size,
      c.length ≤ size := by
  intro fuel
  induction fuel with
  | zero =>
    intro items c hc
    simp [chunkedAux] at hc
  | succ f ih =>
    intro items c hc
    cases items with
    | nil => simp [chunkedAux] at hc
    | cons a rest =>
      simp only [chunkedAux] at hc
      rcases List.mem_cons.mp hc with rfl | hc
      · exact List.length_take_le size (a :: rest)
      · exact ih _ c hc

theorem chunkedAux_ne_nil {α : Type} (size fuel : Nat) (items : List α)
    (hi : items ≠ []) (hf : 1 ≤ fuel) : chunkedAux fuel items size ≠ [] := by
  cases fuel with
  | zero => omega
  | succ f =>
    cases items with
    | nil => exact absurd rfl hi
    | cons a rest => simp [chunkedAux]

theorem chunkedAux_dropLast {α : Type} (size : Nat) (hs : 1 ≤ size) :
    ∀ (fuel : Nat) (items : List α), items.length ≤ fuel →
      ∀ c ∈ (chunkedAux fuel items size).dropLast, c.length = size := by
  intro fuel
  induction fuel with
  | zero =>
    intro items h c hc
    simp [chunkedAux] at hc
  | succ f ih =>
    intro items h c hc
    cases items with
    | nil => simp [chunkedAux] at hc
    | cons a rest =>
      simp only [chunkedAux] at hc
      by_cases hdrop : (a :: rest).drop size = []
      · rw [hdrop] at hc
        have hnil : chunkedAux f ([] : List α) size = [] := by cases f <;> rfl
        rw [hnil] at hc
        simp at hc
      · have hlen : size < (a :: rest).length := by
          by_contra hlt
          push_neg at hlt
          exact hdrop (List.drop_eq_nil_of_le hlt)
        have hf1 : 1 ≤ f := by
          simp only [List.length_cons] at h hlen
          omega
        have hne : chunkedAux f ((a :: rest).drop size) size ≠ [] :=
          chunkedAux_ne_nil size f _ hdrop hf1
        rw [List.dropLast_cons_of_ne_nil hne] at hc
        rcases List.mem_cons.mp hc with rfl | hc
        · exact List.length_take_of_le (by omega)
        · exact ih _ (by rw [List.length_drop]; simp at h ⊢; omega) c hc

/-! ## Raising-mode lemmas for the paginator and the resolvers -/

theorem fetch_req_fold_raised (req : Nat → ReqResult) (pages : List Nat) :
    pages.foldl
      (fun acc page =>
        match acc with
        | FetchResult.raised => FetchResult.raised
        | FetchResult.ok respostas =>
          match req page with
          | ReqResult.raised => FetchResult.raised
          | ReqResult.ok p => FetchResult.ok (respostas ++ p.respostas))
      FetchResult.raised = FetchResult.raised := by
  induction pages with
  | nil => rfl
  | cons p rest ih =>
    rw [List.foldl_cons]
    exact ih

theorem fetch_req_fold_ok (req : Nat → ReqResult) (pages : List Nat)
    (h : ∀ page ∈ pages, req page ≠ ReqResult.raised) :
    ∀ acc : List Item,
      pages.foldl
        (fun acc page =>
          match acc with
          | FetchResult.raised => FetchResult.raised
          | FetchResult.ok respostas =>
            match req page with
            | ReqResult.raised => FetchResult.raised
            | ReqResult.ok p => FetchResult.ok (respostas ++ p.respostas))
        (FetchResult.ok acc) =
        FetchResult.ok
          (acc ++ (pages.map (fun p => ((req p).payloadD).respostas)).flatten) := by
  induction pages with
  | nil =>
    intro acc
    simp
  | cons p rest ih =>
    intro acc
    rw [List.foldl_cons, List.map_cons, List.flatten_cons, ← List.append_assoc]
    cases hq : req p with
    | raised => exact absurd hq (h p (List.mem_cons_self p rest))
    | ok q =>
      simp only [ReqResult.payloadD]
      exact ih (fun x hx => h x (List.mem_cons_of_mem p hx)) (acc ++ q.respostas)

theorem fetch_req_fold_raises (req : Nat → ReqResult) :
    ∀ (pages : List Nat) (page : Nat), page ∈ pages →
      req page = ReqResult.raised →
      ∀ acc : FetchResult,
        pages.foldl
          (fun acc page =>
            match acc with
            | FetchResult.raised => FetchResult.raised
            | FetchResult.ok respostas =>
              match req page with
              | ReqResult.raised => FetchResult.raised
              | ReqResult.ok p => FetchResult.ok (respostas ++ p.respostas))
          acc = FetchResult.raised := by
  intro pages
  induction pages with
  | nil =>
    intro page hmem
    exact absurd hmem (List.not_mem_nil page)
  | cons p rest ih =>
    intro page hmem hr acc
    rw [List.foldl_cons]
    rcases List.mem_cons.mp hmem with rfl | hmem'
    · cases acc with
      | raised => exact fetch_req_fold_raised req rest
      | ok l =>
        rw [hr]
        exact fetch_req_fold_raised req rest
    · exact ih page hmem' hr _

theorem fetch_req_raised0 (req : Nat → ReqResult)
    (h : req 0 = ReqResult.raised) :
    Preventivos.fetch_ocorrencias_req req = FetchResult.raised := by
  simp [Preventivos.fetch_ocorrencias_req, h]

theorem fetch_req_ok (req : Nat → ReqResult) (payload : Payload)
    (h0 : req 0 = ReqResult.ok payload)
    (h : ∀ page ∈ List.range' 1 (payload.totalPages - 1),
      req page ≠ ReqResult.raised) :
    Preventivos.fetch_ocorrencias_req req =
      FetchResult.ok (Preventivos.fetch_ocorrencias (fun p => (req p).payloadD)) := by
  simp only [Preventivos.fetch_ocorrencias_req, h0]
  rw [fetch_req_fold_ok req _ h payload.respostas]
  simp only [Preventivos.fetch_ocorrencias]
  rw [h0]
  simp only [ReqResult.payloadD]

theorem fetch_req_aborts (req : Nat → ReqResult) (payload : Payload) (page : Nat)
    (h0 : req 0 = ReqResult.ok payload)
    (hmem : page ∈ List.range' 1 (payload.totalPages - 1))
    (hr : req page = ReqResult.raised) :
    Preventivos.fetch_ocorrencias_req req = FetchResult.raised := by
  simp only [Preventivos.fetch_ocorrencias_req, h0]
  exact fetch_req_fold_raises req _ page hmem hr _

theorem resolver_req_fold_raised (fetch : List String → FetchResult)
    (chunks : List (List String)) :
    chunks.foldl
      (fun acc ch =>
        match acc with
        | ResolveResult.raised => ResolveResult.raised
        | ResolveResult.ok fl =>
          match fetch ch with
          | FetchResult.raised => ResolveResult.raised
          | FetchResult.ok items =>
            ResolveResult.ok (items.foldl Preventivos.applyItem fl))
      ResolveResult.raised = ResolveResult.raised := by
  induction chunks with
  | nil => rfl
  | cons ch rest ih =>
    rw [List.foldl_cons]
    exact ih

theorem resolver_req_fold_ok (fetch : List String → FetchResult)
    (chunks : List (List String))
    (h : ∀ ch ∈ chunks, fetch ch ≠ FetchResult.raised) :
    ∀ fl : List (String × Bool × Bool),
      chunks.foldl
        (fun acc ch =>
          match acc with
          | ResolveResult.raised => ResolveResult.raised
          | ResolveResult.ok fl =>
            match fetch ch with
            | FetchResult.raised => ResolveResult.raised
            | FetchResult.ok items =>
              ResolveResult.ok (items.foldl Preventivos.applyItem fl))
        (ResolveResult.ok fl) =
        ResolveResult.ok
          (chunks.foldl
            (fun fl ch => ((fetch ch).itemsD).foldl Preventivos.applyItem fl) fl) := by
  induction chunks with
  | nil =>
    intro fl
    rfl
  | cons ch rest ih =>
    intro fl
    rw [List.foldl_cons, List.foldl_cons]
    cases hq : fetch ch with
    | raised => exact absurd hq (h ch (List.mem_cons_self ch rest))
    | ok items =>
      simp only [FetchResult.itemsD]
      exact ih (fun x hx => h x (List.mem_cons_of_mem ch hx)) _

theorem resolver_req_fold_raises (fetch : List String → FetchResult) :
    ∀ (chunks : List (List String)) (ch : List String), ch ∈ chunks →
      fetch ch = FetchResult.raised →
      ∀ acc : ResolveResult (List (String × Bool × Bool)),
        chunks.foldl
          (fun acc ch =>
            match acc with
            | ResolveResult.raised => ResolveResult.raised
            | ResolveResult.ok fl =>
              match fetch ch with
              | FetchResult.raised => ResolveResult.raised
              | FetchResult.ok items =>
                ResolveResult.ok (items.foldl Preventivos.applyItem fl))
          acc = ResolveResult.raised := by
  intro chunks
  induction chunks with
  | nil =>
    intro ch hmem
    exact absurd hmem (List.not_mem_nil ch)
  | cons c rest ih =>
    intro ch hmem hr acc
    rw [List.foldl_cons]
    rcases List.mem_cons.mp hmem with rfl | hmem'
    · cases acc with
      | raised => exact resolver_req_fold_raised fetch rest
      | ok fl =>
        rw [hr]
        exact resolver_req_fold_raised fetch rest
    · exact ih ch hmem' hr _

theorem resolver_prev_req_ok (fetch : List String → FetchResult)
    (pedidos : List String)
    (h : ∀ ch ∈ Preventivos.sublotes pedidos, fetch ch ≠ FetchResult.raised) :
    Preventivos.resolver_status_req fetch pedidos =
      ResolveResult.ok
        (Preventivos.resolver_status (fun ch => (fetch ch).itemsD) pedidos) := by
  simp only [Preventivos.resolver_status_req]
  rw [resolver_req_fold_ok fetch _ h (Preventivos.initFlags pedidos)]
  rfl

theorem resolver_prev_req_aborts (fetch : List String → FetchResult)
    (pedidos : List String) (ch : List String)
    (hmem : ch ∈ Preventivos.sublotes pedidos)
    (hr : fetch ch = FetchResult.raised) :
    Preventivos.resolver_status_req fetch pedidos = ResolveResult.raised := by
  simp only [Preventivos.resolver_status_req]
  rw [resolver_req_fold_raises fetch _ ch hmem hr _]

theorem cob_req_fold_raised (fetch : String → String → FetchResult)
    (pares : List (String × String)) :
    pares.foldl
      (fun acc p =>
        match acc with
        | ResolveResult.raised => ResolveResult.raised
        | ResolveResult.ok m =>
          match fetch p.1 p.2 with
          | FetchResult.raised => ResolveResult.raised
          | FetchResult.ok items =>
            ResolveResult.ok (dictInsert m p (Cobranca.classify_ocorrencias items)))
      ResolveResult.raised = ResolveResult.raised := by
  induction pares with
  | nil => rfl
  | cons p rest ih =>
    rw [List.foldl_cons]
    exact ih

theorem cob_req_fold_ok (fetch : String → String → FetchResult) :
    ∀ pares : List (String × String),
      (∀ pr ∈ pares, fetch pr.1 pr.2 ≠ FetchResult.raised) →
      ∀ m : List ((String × String) × String),
        pares.foldl
          (fun acc p =>
            match acc with
            | ResolveResult.raised => ResolveResult.raised
            | ResolveResult.ok m =>
              match fetch p.1 p.2 with
              | FetchResult.raised => ResolveResult.raised
              | FetchResult.ok items =>
                ResolveResult.ok
                  (dictInsert m p (Cobranca.classify_ocorrencias items)))
          (ResolveResult.ok m) =
          ResolveResult.ok
            (pares.foldl
              (fun m p => dictInsert m p
                (Cobranca.classify_ocorrencias ((fetch p.1 p.2).itemsD))) m) := by
  intro pares
  induction pares with
  | nil =>
    intro _ m
    rfl
  | cons pr rest ih =>
    intro h m
    rw [List.foldl_cons, List.foldl_cons]
    cases hq : fetch pr.1 pr.2 with
    | raised => exact absurd hq (h pr (List.mem_cons_self pr rest))
    | ok items =>
      simp only [FetchResult.itemsD]
      exact ih (fun x hx => h x (List.mem_cons_of_mem pr hx)) _

theorem cob_req_fold_raises (fetch : String → String → FetchResult) :
    ∀ (pares : List (String × String)) (pr : String × String), pr ∈ pares →
      fetch pr.1 pr.2 = FetchResult.raised →
      ∀ acc : ResolveResult (List ((String × String) × String)),
        pares.foldl
          (fun acc p =>
            match acc with
            | ResolveResult.raised => ResolveResult.raised
            | ResolveResult.ok m =>
              match fetch p.1 p.2 with
              | FetchResult.raised => ResolveResult.raised
              | FetchResult.ok items =>
                ResolveResult.ok
                  (dictInsert m p (Cobranca.classify_ocorrencias items)))
          acc = ResolveResult.raised := by
  intro pares
  induction pares with
  | nil =>
    intro pr hmem
    exact absurd hmem (List.not_mem_nil pr)
  | cons p rest ih =>
    intro pr hmem hr acc
    rw [List.foldl_cons]
    rcases List.mem_cons.mp hmem with rfl | hmem'
    · cases acc with
      | raised => exact cob_req_fold_raised fetch rest
      | ok m =>
        rw [hr]
        exact cob_req_fold_raised fetch rest
    · exact ih pr hmem' hr _

theorem resolver_cob_req_ok (fetch : String → String → FetchResult)
    (pares : List (String × String))
    (h : ∀ pr ∈ pares, fetch pr.1 pr.2 ≠ FetchResult.raised) :
    Cobranca.resolver_status_req fetch pares =
      ResolveResult.ok
        (Cobranca.resolver_status (fun nf cnpj => (fetch nf cnpj).itemsD) pares) := by
  simp only [Cobranca.resolver_status_req]
  exact cob_req_fold_ok fetch pares h []

theorem resolver_cob_req_aborts (fetch : String → String → FetchResult)
    (pares : List (String × String)) (pr : String × String)
    (hmem : pr ∈ pares) (hr : fetch pr.1 pr.2 = FetchResult.raised) :
    Cobranca.resolver_status_req fetch pares = ResolveResult.raised := by
  simp only [Cobranca.resolver_status_req]
  exact cob_req_fold_raises fetch pares pr hmem hr _

/-! ## Claim theorems -/

/-- **C10**: the key normalizers are idempotent: re-normalizing an
already-normalized value (fed back as the textual cell value it would
reappear as) returns it unchanged, for `normalize_nf`,
`normalize_pedido` and `normalize_cnpj`. -/
theorem claim_C10 (v : PyVal) :
    normalize_nf (PyVal.str (normalize_nf v)) = normalize_nf v ∧
    normalize_pedido (PyVal.str (normalize_pedido v)) = normalize_pedido v ∧
    normalize_cnpj (PyVal.str (normalize_cnpj v)) = normalize_cnpj v := by
  refine ⟨normalize_nf_idem v, ?_, normalize_cnpj_idem v⟩
  rw [normalize_pedido_eq_nf, normalize_pedido_eq_nf]
  exact normalize_nf_idem v

/-- **C9** fails as stated: `normalize_nf` passes non-numeric text
through unchanged (`"A1"` is neither a decimal-integer string nor the
empty string), and `normalize_cnpj` keeps every digit of an over-long
company id (15 digits in, 15 digits out — not exactly 14 characters). -/
theorem claim_C9_counterexample :
    (specDecimalIntString (normalize_nf (PyVal.str "A1")) = false ∧
      normalize_nf (PyVal.str "A1") ≠ "") ∧
    (normalize_cnpj (PyVal.str "123456789012345") ≠ "" ∧
      (normalize_cnpj (PyVal.str "123456789012345")).data.length ≠ 14) := by
  decide

/-- **C9** (amended): numeric input (int or integral float) normalizes
to its decimal-integer rendering; `None`/NaN normalize to `""`; the
normalized invoice/order number never carries a `".0"` suffix over an
otherwise all-digit string (but non-numeric text passes through
stripped, rather than normalizing to empty); the normalized company id
is all digits, and is empty or at least 14 characters long (exactly 14
only when the input has at most 14 digits). -/
theorem claim_C9_amended (v : PyVal) (n : Int) :
    ((v = PyVal.int n ∨ v = PyVal.floatInt n) →
      normalize_nf v = intRepr n ∧ specDecimalIntString (normalize_nf v) = true) ∧
    ((v = PyVal.none ∨ v = PyVal.floatNaN) →
      normalize_nf v = "" ∧ normalize_cnpj v = "") ∧
    ¬ (pyEndsWith (normalize_nf v) ".0" = true ∧
        pyIsDigit (pyDropRight (normalize_nf v) 2) = true) ∧
    (∀ c ∈ (normalize_cnpj v).data, c.isDigit = true) ∧
    (normalize_cnpj v = "" ∨ 14 ≤ (normalize_cnpj v).data.length) := by
  refine ⟨?_, ?_, normalize_nf_not_fractional v, ?_, ?_⟩
  · rintro (rfl | rfl)
    · exact ⟨rfl, by rw [normalize_nf_int]; exact intRepr_specDecimal n⟩
    · exact ⟨rfl, by rw [normalize_nf_floatInt]; exact intRepr_specDecimal n⟩
  · rintro (rfl | rfl) <;> exact ⟨rfl, rfl⟩
  · rcases normalize_cnpj_spec v with h | ⟨h1, _⟩
    · rw [h]
      intro c hc
      exact absurd hc (List.not_mem_nil c)
    · exact h1
  · rcases normalize_cnpj_spec v with h | ⟨_, h2⟩
    · exact Or.inl h
    · exact Or.inr h2

theorem claim_C9_amended_witness :
    normalize_nf (PyVal.int 45) = intRepr 45 ∧
      specDecimalIntString (normalize_nf (PyVal.int 45)) = true :=
  (claim_C9_amended (PyVal.int 45) 45).1 (Or.inl rfl)

/-- **C8** fails as stated for chunk size 0: Python's
`range(0, len(items), 0)` raises `ValueError`, so `chunked` yields no
chunk list at all (modelled as `Option.none`) rather than chunks whose
concatenation is the input. -/
theorem claim_C8_counterexample : chunked ["a"] 0 = Option.none := rfl

/-- **C8** (amended): for every input list and every *positive* chunk
size, the chunks' in-order concatenation reconstructs the input exactly,
each chunk's length is ≤ the size, and every chunk except possibly the
final one has length exactly the size.  (A zero chunk size raises
`ValueError` in the source instead of yielding chunks.) -/
theorem claim_C8_amended {α : Type} (items : List α) (size : Nat) (h : 0 < size) :
    ∃ cs, chunked items size = Option.some cs ∧ cs.flatten = items ∧
      (∀ c ∈ cs, c.length ≤ size) ∧ ∀ c ∈ cs.dropLast, c.length = size := by
  refine ⟨chunkedAux items.length items size, ?_, ?_, ?_, ?_⟩
  · unfold chunked
    rw [if_neg (by omega)]
  · exact chunkedAux_join size h items.length items (le_refl _)
  · exact chunkedAux_chunk_le size items.length items
  · exact chunkedAux_dropLast size h items.length items (le_refl _)

theorem claim_C8_witness :
    ∃ cs, chunked [1, 2, 3] 2 = Option.some cs ∧ cs.flatten = [1, 2, 3] ∧
      (∀ c ∈ cs, c.length ≤ 2) ∧ ∀ c ∈ cs.dropLast, c.length = 2 :=
  claim_C8_amended [1, 2, 3] 2 (by decide)

/-- **C1**: the classifier returns ENTREGUE when any record's extracted
code is in the ENTREGUE set, else CANCELADO when any is in the CANCELADO
set, else the variant default (`"-"` for the invoice+company variant,
`"DESPACHADO"` for the order-number variant); ENTREGUE takes precedence
when both sets are hit, and the result is invariant under any
permutation of the record list. -/
theorem claim_C1 (l l' : List Item) (k : String) :
    (Cobranca.classify_ocorrencias l = "ENTREGUE" ↔
      ∃ it ∈ l, extract_codigo it ∈ ENTREGUE_CODES) ∧
    (Cobranca.classify_ocorrencias l = "CANCELADO" ↔
      ((¬ ∃ it ∈ l, extract_codigo it ∈ ENTREGUE_CODES) ∧
        ∃ it ∈ l, extract_codigo it ∈ CANCELADO_CODES)) ∧
    ((¬ ∃ it ∈ l, extract_codigo it ∈ ENTREGUE_CODES) →
      (¬ ∃ it ∈ l, extract_codigo it ∈ CANCELADO_CODES) →
      Cobranca.classify_ocorrencias l = "-") ∧
    (l.Perm l' →
      Cobranca.classify_ocorrencias l = Cobranca.classify_ocorrencias l') ∧
    (k ≠ "" → (∀ it ∈ l, extract_pedido it = k) →
      Preventivos.resolver_status (fun _ => l) [k] =
        [(k, if ∃ it ∈ l, extract_codigo it ∈ ENTREGUE_CODES then "ENTREGUE"
             else if ∃ it ∈ l, extract_codigo it ∈ CANCELADO_CODES then "CANCELADO"
             else "DESPACHADO")]) := by
  have hEx := anyE_iff l
  have hCx := anyC_iff l
  have hperm : l.Perm l' →
      Cobranca.classify_ocorrencias l = Cobranca.classify_ocorrencias l' := by
    intro hp
    rw [classify_eq, classify_eq, ← any_perm _ hp, ← any_perm _ hp]
  have h1 : Cobranca.classify_ocorrencias l = "ENTREGUE" ↔
      ∃ it ∈ l, extract_codigo it ∈ ENTREGUE_CODES := by
    rw [classify_eq]
    by_cases hE : l.any (fun it => decide (extract_codigo it ∈ ENTREGUE_CODES)) = true
    · rw [if_pos hE]
      exact iff_of_true rfl (hEx.mp hE)
    · rw [if_neg hE]
      apply iff_of_false
      · by_cases hC : l.any (fun it => decide (extract_codigo it ∈ CANCELADO_CODES)) =
            true
        · rw [if_pos hC]
          decide
        · rw [if_neg hC]
          decide
      · intro hx
        exact hE (hEx.mpr hx)
  have h2 : Cobranca.classify_ocorrencias l = "CANCELADO" ↔
      ((¬ ∃ it ∈ l, extract_codigo it ∈ ENTREGUE_CODES) ∧
        ∃ it ∈ l, extract_codigo it ∈ CANCELADO_CODES) := by
    rw [classify_eq]
    by_cases hE : l.any (fun it => decide (extract_codigo it ∈ ENTREGUE_CODES)) = true
    · rw [if_pos hE]
      exact iff_of_false (by decide) (fun h => h.1 (hEx.mp hE))
    · rw [if_neg hE]
      by_cases hC : l.any (fun it => decide (extract_codigo it ∈ CANCELADO_CODES)) =
          true
      · rw [if_pos hC]
        exact iff_of_true rfl ⟨fun hx => hE (hEx.mpr hx), hCx.mp hC⟩
      · rw [if_neg hC]
        exact iff_of_false (by decide) (fun h => hC (hCx.mpr h.2))
  have h3 : (¬ ∃ it ∈ l, extract_codigo it ∈ ENTREGUE_CODES) →
      (¬ ∃ it ∈ l, extract_codigo it ∈ CANCELADO_CODES) →
      Cobranca.classify_ocorrencias l = "-" := by
    intro hnE hnC
    rw [classify_eq, if_neg (fun hE => hnE (hEx.mp hE)),
      if_neg (fun hC => hnC (hCx.mp hC))]
  have hsingle : k ≠ "" → (∀ it ∈ l, extract_pedido it = k) →
      Preventivos.resolver_status (fun _ => l) [k] =
        [(k, if ∃ it ∈ l, extract_codigo it ∈ ENTREGUE_CODES then "ENTREGUE"
             else if ∃ it ∈ l, extract_codigo it ∈ CANCELADO_CODES then "CANCELADO"
             else "DESPACHADO")] := by
    intro hk hall
    simp only [Preventivos.resolver_status]
    have hsub : Preventivos.sublotes [k] = [[k]] := rfl
    have hinit : Preventivos.initFlags [k] = [(k, (false, false))] := rfl
    rw [hsub, hinit]
    simp only [List.foldl_cons, List.foldl_nil]
    rw [foldl_applyItem_single k hk l false false hall]
    simp only [List.map_cons, List.map_nil]
    have hval : Preventivos.classifyFlags
        (false || l.any (fun it => decide (extract_codigo it ∈ ENTREGUE_CODES)),
         false || l.any (fun it => decide (extract_codigo it ∈ CANCELADO_CODES))) =
        (if ∃ it ∈ l, extract_codigo it ∈ ENTREGUE_CODES then "ENTREGUE"
         else if ∃ it ∈ l, extract_codigo it ∈ CANCELADO_CODES then "CANCELADO"
         else "DESPACHADO") := by
      simp only [Preventivos.classifyFlags, Bool.false_or]
      exact if_congr (anyE_iff l) rfl (if_congr (anyC_iff l) rfl rfl)
    rw [hval]
  exact ⟨h1, h2, h3, hperm, hsingle⟩

theorem claim_C1_witness :
    Preventivos.resolver_status (fun _ => [itemFor "7" "25", itemFor "7" "1"]) ["7"] =
      [("7", "ENTREGUE")] := by
  rw [(claim_C1 [itemFor "7" "25", itemFor "7" "1"] [] "7").2.2.2.2 (by decide)
    (by decide)]
  decide

/-- **C3** fails as stated: in the source the `session.get` call sits
outside the `try`, so an exception raised by the HTTP call itself —
a connection error or timeout surfaced after transport-level retries —
propagates out of `_request` instead of resolving to a payload.  An
oracle whose first call raises makes `_request` raise after one call. -/
theorem claim_C3_counterexample :
    _request (fun _ _ => HttpOutcome.raisesOnCall) (fun _ => Option.none)
      Option.none 3 = (ReqResult.raised, ⟨1, 0, []⟩) := rfl

/-- **C3** (amended): `_request` never raises for any outcome delivered
as an HTTP response — every status code and every body, malformed
included, resolves to a returned payload (the empty one on unrecoverable
failure); only an exception raised by the HTTP call itself escapes to
the caller. -/
theorem claim_C3_amended (http : Nat → Option String → HttpOutcome)
    (auth : Nat → Option String) (tok : Option String) (retries : Nat)
    (h : ∀ i t, http i t ≠ HttpOutcome.raisesOnCall) :
    ∃ p, (_request http auth tok retries).1 = ReqResult.ok p :=
  requestLoop_ok_of_handled http auth retries h retries 1 0 0 [] tok

theorem claim_C3_witness :
    ∃ p, (_request (fun _ _ => HttpOutcome.resp 404 Option.none)
      (fun _ => Option.none) Option.none 3).1 = ReqResult.ok p :=
  claim_C3_amended _ _ _ _ (fun _ _ => by decide)

/-- **C4** fails as stated: the `continue` taken after a successful
re-authentication advances the `for attempt in range(1, retries+1)`
loop, so the 401 iteration *does* consume an application-level attempt.
With the default 3 attempts, outcomes [401 (re-auth ok), failure,
failure, success] exhaust the loop and return the empty payload after 3
calls, while the same post-re-auth outcomes without the leading 401
([failure, failure, success]) reach the success and return its records. -/
theorem claim_C4_counterexample :
    _request (fun i _ => if i = 0 then HttpOutcome.resp 401 Option.none
        else if i ≤ 2 then HttpOutcome.resp 500 Option.none
        else HttpOutcome.resp 200 (Option.some ⟨[], 7⟩))
      (fun _ => Option.some "t") (Option.some "t0") 3 =
      (ReqResult.ok Payload.empty, ⟨3, 1, [4]⟩) ∧
    _request (fun i _ => if i ≤ 1 then HttpOutcome.resp 500 Option.none
        else HttpOutcome.resp 200 (Option.some ⟨[], 7⟩))
      (fun _ => Option.some "t") (Option.some "t") 3 =
      (ReqResult.ok (⟨[], 7⟩ : Payload), ⟨3, 0, [2, 4]⟩) ∧
    (⟨[], 7⟩ : Payload) ≠ Payload.empty := by
  decide

/-- **C4** (amended): on a 401 the executor triggers re-authentication;
if re-authentication fails it returns the empty result immediately (one
call, one re-authentication, no sleep); if it succeeds the same query is
retried with the new token — though the 401 iteration consumes an
application-level attempt — and a query that gets a 401 once,
re-authenticates and then succeeds returns the same records as one that
succeeds immediately, with exactly one re-authentication performed. -/
theorem claim_C4_amended (http : Nat → Option String → HttpOutcome)
    (auth : Nat → Option String) (tok : Option String) (retries : Nat)
    (body : Option Payload) (t : String) (p : Payload) :
    (1 ≤ retries → http 0 tok = HttpOutcome.resp 401 body →
      auth 0 = Option.none →
      _request http auth tok retries = (ReqResult.ok Payload.empty, ⟨1, 1, []⟩)) ∧
    (2 ≤ retries → http 0 tok = HttpOutcome.resp 401 body →
      auth 0 = Option.some t →
      http 1 (Option.some t) = HttpOutcome.resp 200 (Option.some p) →
      _request http auth tok retries = (ReqResult.ok p, ⟨2, 1, []⟩)) ∧
    (1 ≤ retries → http 0 tok = HttpOutcome.resp 200 (Option.some p) →
      _request http auth tok retries = (ReqResult.ok p, ⟨1, 0, []⟩)) := by
  refine ⟨?_, ?_, ?_⟩
  · intro hr hh ha
    obtain ⟨f, rfl⟩ : ∃ f, retries = f + 1 := ⟨retries - 1, by omega⟩
    unfold _request
    rw [requestLoop_step_401_fail http auth (f + 1) f 1 0 0 [] tok body hh ha]
  · intro hr hh ha hh1
    obtain ⟨f, rfl⟩ : ∃ f, retries = f + 2 := ⟨retries - 2, by omega⟩
    unfold _request
    rw [requestLoop_step_401_ok http auth (f + 2) (f + 1) 1 0 0 [] tok body t hh ha]
    rw [requestLoop_step_success http auth (f + 2) f 2 1 1 [] (Option.some t) 200 p
      hh1 (by omega) (by omega) (by omega)]
  · intro hr hh
    obtain ⟨f, rfl⟩ : ∃ f, retries = f + 1 := ⟨retries - 1, by omega⟩
    unfold _request
    rw [requestLoop_step_success http auth (f + 1) f 1 0 0 [] tok 200 p hh
      (by omega) (by omega) (by omega)]

theorem claim_C4_witness :
    _request (fun i _ => if i = 0 then HttpOutcome.resp 401 Option.none
        else HttpOutcome.resp 200 (Option.some ⟨[], 9⟩))
      (fun _ => Option.some "tk") Option.none 3 =
      (ReqResult.ok (⟨[], 9⟩ : Payload), ⟨2, 1, []⟩) :=
  (claim_C4_amended _ _ _ 3 Option.none "tk" ⟨[], 9⟩).2.1 (by omega) (by decide)
    (by decide) (by decide)

/-- **C5** fails as stated: a timeout or connection error is a request
failure other than 401/404, yet when one occurs the `session.get` call
(outside the `try`) raises, and the loop neither completes its n
attempts nor returns the empty payload.  With n = 3, a 500-failure
followed by a raising call gives two calls, one sleep, and an exception. -/
theorem claim_C5_counterexample :
    _request (fun i _ => if i = 0 then HttpOutcome.resp 500 Option.none
        else HttpOutcome.raisesOnCall)
      (fun _ => Option.none) Option.none 3 = (ReqResult.raised, ⟨2, 0, [2]⟩) := by
  decide

/-- **C5** (amended): for every attempt bound n, when every outcome is a
request failure signalled by the response (a status outside {401, 404}
failing `raise_for_status`, or an unparseable body), the executor makes
exactly n application-level attempts (n HTTP calls), sleeps 2·attempt
seconds between consecutive failed attempts ([2·1, …, 2·(n−1)]), and
returns the empty payload after the final one; and for every oracle
whatsoever at most n calls are made, so the retry loop terminates.
Failures raised by the HTTP call itself escape instead (see C3). -/
theorem claim_C5_amended (http : Nat → Option String → HttpOutcome)
    (auth : Nat → Option String) (tok : Option String) (retries : Nat) :
    ((∀ i t, retryFail (http i t) = true) →
      _request http auth tok retries =
        (ReqResult.ok Payload.empty,
         ⟨retries, 0, (List.range' 1 (retries - 1)).map (fun a => 2 * a)⟩)) ∧
    (_request http auth tok retries).2.calls ≤ retries := by
  constructor
  · intro h
    cases retries with
    | zero => rfl
    | succ r =>
      unfold _request
      rw [requestLoop_allFail http auth (r + 1) h (r + 1) 1 0 0 [] tok (by omega)
        (by omega)]
      simp
  · have h := requestLoop_calls_le http auth retries retries 1 0 0 [] tok
    unfold _request
    omega

theorem claim_C5_witness :
    _request (fun _ _ => HttpOutcome.resp 503 Option.none) (fun _ => Option.none)
      (Option.some "t") 3 = (ReqResult.ok Payload.empty, ⟨3, 0, [2, 4]⟩) := by
  have h := (claim_C5_amended (fun _ _ => HttpOutcome.resp 503 Option.none)
    (fun _ => Option.none) (Option.some "t") 3).1 (fun _ _ => by decide)
  rw [h]
  decide

/-- **C6** fails as stated: a page query whose `session.get` raises (the
failure mode of claim C3) aborts the whole pagination instead of
contributing an empty list — `fetch_ocorrencias` has no `try`, so the
exception propagates, discarding even the records of pages already
fetched.  Here page 0 reports `totalPages = 3` and delivers a record,
page 1 raises: the result is the exception, not a record list (whereas
with the failing pages resolving to empty payloads all surviving
records are kept). -/
theorem claim_C6_counterexample :
    Preventivos.fetch_ocorrencias_req
      (fun p => if p = 0 then ReqResult.ok ⟨[itemWithCode "1"], 3⟩
                else ReqResult.raised) = FetchResult.raised ∧
    Preventivos.fetch_ocorrencias
      (fun p => if p = 0 then ⟨[itemWithCode "1"], 3⟩ else Payload.empty) =
      [itemWithCode "1"] := by
  decide

/-- **C6** (amended): when the first response reports `totalPages = N`,
the paginator requests page 0 and then the identical query at each page
index 1..N−1 in strictly increasing order (no additional query when
N ≤ 1), returning the concatenation of all pages' record lists in page
order; a page whose request fails in the executor-absorbed way
(resolving to the empty payload) contributes the empty list while every
other page's records are kept; but a page whose request raises (claim
C3) aborts the whole pagination — whether it is page 0 or any later
page — and when no page raises the raising-aware model returns exactly
the payload-level concatenation. -/
theorem claim_C6_amended (reqr : Nat → ReqResult) (payload : Payload)
    (req : Nat → Payload) :
    (reqr 0 = ReqResult.raised →
      Preventivos.fetch_ocorrencias_req reqr = FetchResult.raised) ∧
    (reqr 0 = ReqResult.ok payload →
      ∀ page ∈ List.range' 1 (payload.totalPages - 1),
        reqr page = ReqResult.raised →
        Preventivos.fetch_ocorrencias_req reqr = FetchResult.raised) ∧
    (reqr 0 = ReqResult.ok payload →
      (∀ page ∈ List.range' 1 (payload.totalPages - 1),
        reqr page ≠ ReqResult.raised) →
      Preventivos.fetch_ocorrencias_req reqr =
        FetchResult.ok
          (Preventivos.fetch_ocorrencias (fun p => (reqr p).payloadD))) ∧
    Preventivos.fetch_ocorrencias req =
      ((Preventivos.fetch_pages req).map (fun page => (req page).respostas)).flatten ∧
    List.Pairwise (· < ·) (Preventivos.fetch_pages req) ∧
    ((req 0).totalPages ≤ 1 → Preventivos.fetch_pages req = [0] ∧
      Preventivos.fetch_ocorrencias req = (req 0).respostas) ∧
    (∀ p, 1 ≤ p →
      Preventivos.fetch_ocorrencias
        (fun q => if q = p then Payload.empty else req q) =
        ((Preventivos.fetch_pages req).map
          (fun q => if q = p then [] else (req q).respostas)).flatten) := by
  refine ⟨fun h => fetch_req_raised0 reqr h,
    fun h0 page hmem hr => fetch_req_aborts reqr payload page h0 hmem hr,
    fun h0 h => fetch_req_ok reqr payload h0 h, ?_, ?_, ?_, ?_⟩
  · simp only [Preventivos.fetch_ocorrencias, Preventivos.fetch_pages, List.map_cons,
      List.flatten_cons]
  · simp only [Preventivos.fetch_pages]
    rw [List.pairwise_cons]
    constructor
    · intro b hb
      have := (List.mem_range'_1.mp hb).1
      omega
    · exact List.pairwise_lt_range' 1 ((req 0).totalPages - 1)
  · intro hN
    have h0 : (req 0).totalPages - 1 = 0 := by omega
    constructor
    · simp [Preventivos.fetch_pages, h0]
    · simp [Preventivos.fetch_ocorrencias, h0]
  · intro p hp
    simp only [Preventivos.fetch_ocorrencias, Preventivos.fetch_pages, List.map_cons,
      List.flatten_cons]
    have h0 : (if (0 : Nat) = p then Payload.empty else req 0) = req 0 :=
      if_neg (by omega)
    rw [h0, if_neg (show ¬ ((0 : Nat) = p) by omega)]
    congr 1
    congr 1
    apply List.map_congr_left
    intro q _
    by_cases hq : q = p
    · simp [hq, Payload.empty]
    · simp [hq]

theorem claim_C6_witness :
    Preventivos.fetch_ocorrencias_req
      (fun p => ReqResult.ok (if p = 0 then ⟨[itemWithCode "1"], 2⟩
                              else ⟨[itemWithCode "2"], 9⟩)) =
      FetchResult.ok [itemWithCode "1", itemWithCode "2"] := by
  rw [(claim_C6_amended
    (fun p => ReqResult.ok (if p = 0 then ⟨[itemWithCode "1"], 2⟩
                            else ⟨[itemWithCode "2"], 9⟩))
    ⟨[itemWithCode "1"], 2⟩ (fun _ => Payload.empty)).2.2.1 (by decide) (by decide)]
  decide

/-- **C7** fails as stated: a remote query whose `session.get` raises
(claim C3) propagates out of `resolver_status` — nothing catches it —
aborting the run and losing *every* key's result, so "records lost to a
failed query map to the variant default" does not hold in the raising
mode.  Here the invoice+company resolver's second query raises and the
already-classified first pair's entry is lost with it (whereas with
failures absorbed to `[]` both pairs default to `"-"`); a raising batch
likewise aborts the order-number resolver. -/
theorem claim_C7_counterexample :
    Cobranca.resolver_status_req
      (fun nf _ => if nf = "1" then FetchResult.ok [] else FetchResult.raised)
      [("1", "c"), ("2", "c")] = ResolveResult.raised ∧
    Cobranca.resolver_status (fun _ _ => []) [("1", "c"), ("2", "c")] =
      [(("1", "c"), "-"), (("2", "c"), "-")] ∧
    Preventivos.resolver_status_req (fun _ => FetchResult.raised) ["7"] =
      ResolveResult.raised := by
  decide

/-- **C7** (amended): provided no remote query raises, the resolvers
behave as the claim states — the raising-aware models then agree with
the absorbed-failure models, the order-number resolver's key set equals
the input key set with each key classified exactly once (keys are the
first-occurrence dedup of the input, without duplicates), a key matched
by no delivered record (in particular one whose batch's failure was
absorbed to an empty record set) classifies to the variant default,
records whose embedded key is empty or not among the queried keys never
add entries nor affect any key, and in the invoice+company variant every
input pair maps exactly to the classification of its own fetched
records; but a query that raises (claim C3) propagates out of either
resolver, aborting the run and losing every key's result. -/
theorem claim_C7_amended (fetch : List String → List Item) (pedidos : List String)
    (k : String) (fetchC : String → String → List Item)
    (pares : List (String × String)) (pr : String × String)
    (fetchr : List String → FetchResult) (ch : List String)
    (fetchCr : String → String → FetchResult) (prr : String × String) :
    ((∀ c ∈ Preventivos.sublotes pedidos, fetchr c ≠ FetchResult.raised) →
      Preventivos.resolver_status_req fetchr pedidos =
        ResolveResult.ok
          (Preventivos.resolver_status (fun c => (fetchr c).itemsD) pedidos)) ∧
    (ch ∈ Preventivos.sublotes pedidos → fetchr ch = FetchResult.raised →
      Preventivos.resolver_status_req fetchr pedidos = ResolveResult.raised) ∧
    ((∀ q ∈ pares, fetchCr q.1 q.2 ≠ FetchResult.raised) →
      Cobranca.resolver_status_req fetchCr pares =
        ResolveResult.ok
          (Cobranca.resolver_status (fun nf cnpj => (fetchCr nf cnpj).itemsD)
            pares)) ∧
    (prr ∈ pares → fetchCr prr.1 prr.2 = FetchResult.raised →
      Cobranca.resolver_status_req fetchCr pares = ResolveResult.raised) ∧
    (Preventivos.resolver_status fetch pedidos).map Prod.fst = dedupFirst pedidos ∧
    ((Preventivos.resolver_status fetch pedidos).map Prod.fst).Nodup ∧
    (∀ k', (∃ s, lookup? (Preventivos.resolver_status fetch pedidos) k' =
      Option.some s) ↔ k' ∈ pedidos) ∧
    (k ∈ pedidos →
      (∀ ch ∈ Preventivos.sublotes pedidos, ∀ it ∈ fetch ch,
        extract_pedido it ≠ k) →
      lookup? (Preventivos.resolver_status fetch pedidos) k =
        Option.some "DESPACHADO") ∧
    Preventivos.resolver_status fetch pedidos =
      Preventivos.resolver_status (fun ch => (fetch ch).filter
        (fun it => !(extract_pedido it = "") &&
          decide (extract_pedido it ∈ pedidos))) pedidos ∧
    (pr ∈ pares →
      lookup? (Cobranca.resolver_status fetchC pares) pr =
        Option.some (Cobranca.classify_ocorrencias (fetchC pr.1 pr.2))) := by
  refine ⟨fun h => resolver_prev_req_ok fetchr pedidos h,
    fun hm hr => resolver_prev_req_aborts fetchr pedidos ch hm hr,
    fun h => resolver_cob_req_ok fetchCr pares h,
    fun hm hr => resolver_cob_req_aborts fetchCr pares prr hm hr,
    resolver_prev_keys fetch pedidos, ?_, ?_, ?_, resolver_prev_filter fetch
    pedidos, fun h => lookup_resolver_cob fetchC pares pr h⟩
  · rw [resolver_prev_keys]
    exact dedupFirst_nodup pedidos
  · intro k'
    constructor
    · rintro ⟨s, hs⟩
      have hm := lookup_mem _ _ _ hs
      have hmem : k' ∈ (Preventivos.resolver_status fetch pedidos).map Prod.fst :=
        List.mem_map.mpr ⟨(k', s), hm, rfl⟩
      rw [resolver_prev_keys, dedupFirst_mem] at hmem
      exact hmem
    · intro hk'
      apply exists_lookup_of_mem_keys
      rw [resolver_prev_keys, dedupFirst_mem]
      exact hk'
  · intro hk hno
    exact resolver_prev_default fetch pedidos k hk hno

theorem claim_C7_witness :
    Preventivos.resolver_status_req (fun _ => FetchResult.ok [itemFor "9" "1"])
      ["5"] = ResolveResult.ok
        (Preventivos.resolver_status (fun _ => [itemFor "9" "1"]) ["5"]) ∧
    lookup? (Preventivos.resolver_status (fun _ => [itemFor "9" "1"]) ["5"]) "5" =
      Option.some "DESPACHADO" := by
  constructor
  · rw [(claim_C7_amended (fun _ => [itemFor "9" "1"]) ["5"] "5" (fun _ _ => []) []
      ("", "") (fun _ => FetchResult.ok [itemFor "9" "1"]) [] (fun _ _ =>
      FetchResult.ok []) ("", "")).1 (fun c _ => by decide)]
    decide
  · exact (claim_C7_amended (fun _ => [itemFor "9" "1"]) ["5"] "5" (fun _ _ => [])
      [] ("", "") (fun _ => FetchResult.ok [itemFor "9" "1"]) [] (fun _ _ =>
      FetchResult.ok []) ("", "")).2.2.2.2.2.2.2.1 (by decide) (by decide)

/-! ### Main-pipeline lemmas for C2 -/

theorem main_statuses_prev_get (fetch : List String → List Item)
    (firstCol : List PyVal) (hasHeader : Bool) (i : Nat) (v : PyVal)
    (hv : (firstCol.drop (if hasHeader then 1 else 0))[i]? = Option.some v) :
    (Preventivos.main_statuses fetch firstCol hasHeader)[i]? =
      Option.some (if normalize_pedido v = "" then ""
        else getD (Preventivos.resolver_status fetch
          (dedupFirst (Preventivos.pedidos_from firstCol
            (if hasHeader then 1 else 0)))) (normalize_pedido v) "DESPACHADO") := by
  simp only [Preventivos.main_statuses]
  rw [List.getElem?_map, hv]
  rfl

theorem pedidos_from_mem_of_getElem (firstCol : List PyVal) (start i : Nat)
    (v : PyVal) (hv : (firstCol.drop start)[i]? = Option.some v)
    (hne : normalize_pedido v ≠ "")
    (hnan : pyLower (pyStrip (normalize_pedido v)) ≠ "nan") :
    normalize_pedido v ∈ Preventivos.pedidos_from firstCol start := by
  unfold Preventivos.pedidos_from
  apply List.mem_filter.mpr
  refine ⟨List.mem_map.mpr ⟨v, List.getElem?_mem hv, rfl⟩, by simp [hne, hnan]⟩

theorem prev_table_nan (fetch : List String → List Item) (firstCol : List PyVal)
    (start : Nat) (p : String) (hnan : pyLower (pyStrip p) = "nan") :
    lookup? (Preventivos.resolver_status fetch
      (dedupFirst (Preventivos.pedidos_from firstCol start))) p = Option.none := by
  apply lookup_eq_none_of_not_mem
  rw [resolver_prev_keys, dedupFirst_mem, dedupFirst_mem]
  unfold Preventivos.pedidos_from
  intro hmem
  have h2 := (List.mem_filter.mp hmem).2
  rw [hnan] at h2
  simp at h2

theorem main_statuses_cob_get (fetch : String → String → List Item)
    (values : List (List PyVal)) (start i : Nat) (row : List PyVal)
    (hrow : (values.drop start)[i]? = Option.some row) :
    (Cobranca.main_statuses fetch values start)[i]? =
      Option.some
        (if normalize_nf (row.getD 0 (PyVal.str "")) = "" ∨
            normalize_cnpj (row.getD 1 (PyVal.str "")) = "" then ""
         else getD (Cobranca.resolver_status fetch (dedupFirst
            (((values.drop start).map (fun r =>
              (normalize_nf (r.getD 0 (PyVal.str "")),
               normalize_cnpj (r.getD 1 (PyVal.str ""))))).filter
              (fun q => !(q.1 = "") && !(q.2 = "")))))
           (normalize_nf (row.getD 0 (PyVal.str "")),
            normalize_cnpj (row.getD 1 (PyVal.str ""))) "-") := by
  simp only [Cobranca.main_statuses]
  rw [List.getElem?_map, List.getElem?_map, hrow]
  rfl

theorem cob_pair_mem (values : List (List PyVal)) (start i : Nat) (row : List PyVal)
    (hrow : (values.drop start)[i]? = Option.some row)
    (hnf : normalize_nf (row.getD 0 (PyVal.str "")) ≠ "")
    (hc : normalize_cnpj (row.getD 1 (PyVal.str "")) ≠ "") :
    (normalize_nf (row.getD 0 (PyVal.str "")),
     normalize_cnpj (row.getD 1 (PyVal.str ""))) ∈
      ((values.drop start).map (fun r => (normalize_nf (r.getD 0 (PyVal.str "")),
        normalize_cnpj (r.getD 1 (PyVal.str ""))))).filter
        (fun q => !(q.1 = "") && !(q.2 = "")) := by
  apply List.mem_filter.mpr
  refine ⟨List.mem_map.mpr ⟨row, List.getElem?_mem hrow, rfl⟩, ?_⟩
  simp only [Bool.and_eq_true, Bool.not_eq_true', decide_eq_false_iff_not]
  exact ⟨hnf, hc⟩

/-- **C2** fails as stated in the order-number variant: a raw row whose
normalized key is `"nan"` (case-insensitive) is excluded from the lookup
set by `load_pedidos_from_sheet`, so its canonical key gets no entry in
the ResolutionTable, yet the emitted status for that row is
`"DESPACHADO"` (the `.get` default), not a status the table assigns. -/
theorem claim_C2_counterexample :
    Preventivos.main_statuses (fun _ => []) [PyVal.str "nan"] false =
      ["DESPACHADO"] ∧
    normalize_pedido (PyVal.str "nan") ≠ "" ∧
    lookup? (Preventivos.resolver_status (fun _ => [])
      (dedupFirst (Preventivos.pedidos_from [PyVal.str "nan"] 0))) "nan" =
      Option.none := by
  decide

/-- **C2** (amended): the emitted status sequence has exactly one entry
per data row, index-aligned with the original non-deduplicated input; a
row whose normalized key is empty gets the empty string; in the
order-number variant a row whose key normalizes to `"nan"`
(case-insensitive) is excluded from the lookup set and gets the variant
default `"DESPACHADO"`, while every other row gets exactly the status
the ResolutionTable assigns to its canonical key; in the invoice+company
variant every valid row gets exactly the table's status for its pair;
rows with equal raw values receive identical statuses. -/
theorem claim_C2_amended :
    (∀ (fetch : List String → List Item) (firstCol : List PyVal) (hasHeader : Bool),
      (Preventivos.main_statuses fetch firstCol hasHeader).length =
        (firstCol.drop (if hasHeader then 1 else 0)).length) ∧
    (∀ (fetch : List String → List Item) (firstCol : List PyVal) (hasHeader : Bool)
      (i : Nat) (v : PyVal),
      (firstCol.drop (if hasHeader then 1 else 0))[i]? = Option.some v →
      (normalize_pedido v = "" →
        (Preventivos.main_statuses fetch firstCol hasHeader)[i]? =
          Option.some "") ∧
      (normalize_pedido v ≠ "" → pyLower (pyStrip (normalize_pedido v)) = "nan" →
        (Preventivos.main_statuses fetch firstCol hasHeader)[i]? =
          Option.some "DESPACHADO" ∧
        lookup? (Preventivos.resolver_status fetch (dedupFirst
          (Preventivos.pedidos_from firstCol (if hasHeader then 1 else 0))))
          (normalize_pedido v) = Option.none) ∧
      (normalize_pedido v ≠ "" → pyLower (pyStrip (normalize_pedido v)) ≠ "nan" →
        ∃ s, lookup? (Preventivos.resolver_status fetch (dedupFirst
          (Preventivos.pedidos_from firstCol (if hasHeader then 1 else 0))))
          (normalize_pedido v) = Option.some s ∧
          (Preventivos.main_statuses fetch firstCol hasHeader)[i]? =
            Option.some s)) ∧
    (∀ (fetch : List String → List Item) (firstCol : List PyVal) (hasHeader : Bool)
      (i j : Nat) (v : PyVal),
      (firstCol.drop (if hasHeader then 1 else 0))[i]? = Option.some v →
      (firstCol.drop (if hasHeader then 1 else 0))[j]? = Option.some v →
      (Preventivos.main_statuses fetch firstCol hasHeader)[i]? =
        (Preventivos.main_statuses fetch firstCol hasHeader)[j]?) ∧
    (∀ (fetchC : String → String → List Item) (values : List (List PyVal))
      (start : Nat),
      (Cobranca.main_statuses fetchC values start).length =
        (values.drop start).length) ∧
    (∀ (fetchC : String → String → List Item) (values : List (List PyVal))
      (start i : Nat) (row : List PyVal),
      (values.drop start)[i]? = Option.some row →
      (normalize_nf (row.getD 0 (PyVal.str "")) = "" ∨
          normalize_cnpj (row.getD 1 (PyVal.str "")) = "" →
        (Cobranca.main_statuses fetchC values start)[i]? = Option.some "") ∧
      (normalize_nf (row.getD 0 (PyVal.str "")) ≠ "" →
        normalize_cnpj (row.getD 1 (PyVal.str "")) ≠ "" →
        ∃ s, (Cobranca.main_statuses fetchC values start)[i]? = Option.some s ∧
          lookup? (Cobranca.resolver_status fetchC (dedupFirst
            (((values.drop start).map (fun r =>
              (normalize_nf (r.getD 0 (PyVal.str "")),
               normalize_cnpj (r.getD 1 (PyVal.str ""))))).filter
              (fun q => !(q.1 = "") && !(q.2 = "")))))
            (normalize_nf (row.getD 0 (PyVal.str "")),
             normalize_cnpj (row.getD 1 (PyVal.str ""))) = Option.some s)) := by
  refine ⟨?_, ?_, ?_, ?_, ?_⟩
  · intro fetch firstCol hasHeader
    simp only [Preventivos.main_statuses, List.length_map]
  · intro fetch firstCol hasHeader i v hv
    have hget := main_statuses_prev_get fetch firstCol hasHeader i v hv
    refine ⟨?_, ?_, ?_⟩
    · intro hemp
      rw [hget, if_pos hemp]
    · intro hne hnan
      have hnone := prev_table_nan fetch firstCol (if hasHeader then 1 else 0)
        (normalize_pedido v) hnan
      refine ⟨?_, hnone⟩
      rw [hget, if_neg hne]
      unfold getD
      rw [hnone]
      rfl
    · intro hne hnan
      have hmem : normalize_pedido v ∈ (Preventivos.resolver_status fetch
          (dedupFirst (Preventivos.pedidos_from firstCol
            (if hasHeader then 1 else 0)))).map Prod.fst := by
        rw [resolver_prev_keys, dedupFirst_mem, dedupFirst_mem]
        exact pedidos_from_mem_of_getElem firstCol _ i v hv hne hnan
      obtain ⟨s, hs⟩ := exists_lookup_of_mem_keys _ _ hmem
      refine ⟨s, hs, ?_⟩
      rw [hget, if_neg hne]
      unfold getD
      rw [hs]
      rfl
  · intro fetch firstCol hasHeader i j v hvi hvj
    rw [main_statuses_prev_get fetch firstCol hasHeader i v hvi,
      main_statuses_prev_get fetch firstCol hasHeader j v hvj]
  · intro fetchC values start
    simp only [Cobranca.main_statuses, List.length_map]
  · intro fetchC values start i row hrow
    have hget := main_statuses_cob_get fetchC values start i row hrow
    constructor
    · intro hemp
      rw [hget, if_pos hemp]
    · intro hnf hc
      have hmem : (normalize_nf (row.getD 0 (PyVal.str "")),
          normalize_cnpj (row.getD 1 (PyVal.str ""))) ∈ dedupFirst
            (((values.drop start).map (fun r =>
              (normalize_nf (r.getD 0 (PyVal.str "")),
               normalize_cnpj (r.getD 1 (PyVal.str ""))))).filter
              (fun q => !(q.1 = "") && !(q.2 = ""))) := by
        rw [dedupFirst_mem]
        exact cob_pair_mem values start i row hrow hnf hc
      have hs := lookup_resolver_cob fetchC _ _ hmem
      refine ⟨_, ?_, hs⟩
      rw [hget, if_neg (by rintro (h | h); exacts [hnf h, hc h])]
      unfold getD
      rw [hs]
      rfl

theorem claim_C2_witness :
    ∃ s, lookup? (Preventivos.resolver_status (fun _ => [])
      (dedupFirst (Preventivos.pedidos_from [PyVal.str "7"] 0))) "7" =
      Option.some s ∧
      (Preventivos.main_statuses (fun _ => []) [PyVal.str "7"] false)[0]? =
        Option.some s :=
  ((claim_C2_amended.2.1) (fun _ => []) [PyVal.str "7"] false 0 (PyVal.str "7")
    (by decide)).2.2 (by decide) (by decide)

end AttPreventivos
